import Mathlib

set_option synthInstance.maxSize 512

/-!
Verification development for the yt-sprint-tool repository.

The Python sources are shallowly embedded in Lean:
* `DateUtils` (src/lib_date_utils.py) together with the CPython
  `datetime` internals it relies on (`date.fromisocalendar`,
  `date.isocalendar`, `datetime.timestamp`);
* `YouTrackAPI` (src/ytsprint/lib_yt_api.py) as transition functions over
  an explicit world of boards, projects, fields and default values, with
  an explicit trace of gateway calls;
* `SprintService` (src/ytsprint/lib_sprint.py);
* the `DaemonRunner` job wrapper (src/ytsprint/lib_daemon.py).

Machine reals (CPython floats) occurring in
`int(datetime.timestamp() * 1000)` are modelled bit exactly as IEEE-754
binary64 round-to-nearest-even arithmetic over scaled integers.
Python `//` and `%` with positive divisors agree with Lean `Int.ediv`
and `Int.emod`, which are used throughout (all divisors are positive).
-/

namespace YT

/-! ## Python `int()` parsing over lists of characters

Python `str` values that are computed on are embedded as `List Char`
(Lean `String` functions do not evaluate well inside the kernel).
`int(text)` strips whitespace, accepts one optional sign and a nonempty
digit sequence in which single underscores may appear between digits. -/

def isPySpace (c : Char) : Bool :=
  c == ' ' || c == '\t' || c == '\n' || c == '\x0d' || c == '\x0b' || c == '\x0c'

def pyStrip (cs : List Char) : List Char :=
  ((cs.dropWhile isPySpace).reverse.dropWhile isPySpace).reverse

/-- Digit run with optional single underscores between digits; returns the
accumulated value, or `none` on any violation. -/
def pyDigitsGo (acc : ℕ) : List Char → Option ℕ
  | [] => some acc
  | c :: rest =>
      if c = '_' then
        match rest with
        | [] => none
        | c2 :: rest2 =>
            if c2.isDigit then pyDigitsGo (acc * 10 + (c2.toNat - 48)) rest2
            else none
      else if c.isDigit then pyDigitsGo (acc * 10 + (c.toNat - 48)) rest
      else none

def pyDigits : List Char → Option ℕ
  | [] => none
  | c :: rest =>
      if c = '_' then none
      else if c.isDigit then pyDigitsGo (c.toNat - 48) rest
      else none

/-- Model of Python `int(text)` for `str` input. -/
def pyInt (cs : List Char) : Option Int :=
  match pyStrip cs with
  | [] => none
  | c :: rest =>
      if c = '+' then (pyDigits rest).map (fun n => (n : Int))
      else if c = '-' then (pyDigits rest).map (fun n => -(n : Int))
      else (pyDigits (c :: rest)).map (fun n => (n : Int))

/-- Model of Python `text.split(".")`. -/
def splitOnDot : List Char → List (List Char)
  | [] => [[]]
  | c :: rest =>
      if c = '.' then [] :: splitOnDot rest
      else
        match splitOnDot rest with
        | [] => [[c]]
        | h :: t => (c :: h) :: t

/-! ## CPython proleptic-Gregorian calendar internals

Ordinals count days with `0001-01-01` as day 1, exactly as
`datetime._ymd2ord`.  Only the pieces actually used by the repository are
embedded: `_days_before_year`, `_isoweek1monday`, the year component of
`_ord2ymd`, `date.fromisocalendar` (returning the ordinal of the
resulting date) and `date.isocalendar`. -/

def pyIsLeap (y : Int) : Bool :=
  y % 4 == 0 && (y % 100 != 0 || y % 400 == 0)

/-- `datetime._days_before_year`. -/
def daysBeforeYear (year : Int) : Int :=
  365 * (year - 1) + (year - 1) / 4 - (year - 1) / 100 + (year - 1) / 400

/-- `_ymd2ord(year, 1, 1)`. -/
def ordJan1 (year : Int) : Int := daysBeforeYear year + 1

/-- `datetime._isoweek1monday`. -/
def isoweek1monday (year : Int) : Int :=
  let firstday := ordJan1 year
  let firstweekday := (firstday + 6) % 7
  let week1monday := firstday - firstweekday
  if 3 < firstweekday then week1monday + 7 else week1monday

/-- Week-53 admissibility check of `date.fromisocalendar`: ISO years with
53 weeks start on a Thursday, or on a Wednesday in a leap year. -/
def hasWeek53 (year : Int) : Bool :=
  let firstWeekday := ordJan1 year % 7
  firstWeekday == 4 || (firstWeekday == 3 && pyIsLeap year)

/-- Ordinal of `date.max` (9999-12-31); the `date` constructor rejects
anything outside `[1, 3652059]`. -/
def maxOrdinal : Int := 3652059

/-- `date.fromisocalendar(year, week, day)`, returning the ordinal of the
resulting date, or `none` where CPython raises `ValueError` (year outside
1..9999, week outside the valid ISO range, day outside 1..7, or a result
outside the supported date range). -/
def fromisocalendarOrd (year week day : Int) : Option Int :=
  if year < 1 || 9999 < year then none
  else if week < 1 || 53 < week then none
  else if week == 53 && !hasWeek53 year then none
  else if day < 1 || 7 < day then none
  else
    let o := isoweek1monday year + 7 * (week - 1) + (day - 1)
    if o < 1 || maxOrdinal < o then none else some o

/-- Year component of `datetime._ord2ymd`. -/
def yearOfOrdinal (n : Int) : Int :=
  let n0 := n - 1
  let n400 := n0 / 146097
  let r400 := n0 % 146097
  let n100 := r400 / 36524
  let r100 := r400 % 36524
  let n4 := r100 / 1461
  let r4 := r100 % 1461
  let n1 := r4 / 365
  let year := 400 * n400 + 100 * n100 + 4 * n4 + n1 + 1
  if n1 == 4 || n100 == 4 then year - 1 else year

/-- `date.isocalendar()` on the date with ordinal `n`, returning
`(iso_year, iso_week, iso_weekday)`. -/
def isocalendarOfOrd (n : Int) : Int × Int × Int :=
  let year := yearOfOrdinal n
  let week1monday := isoweek1monday year
  let week := (n - week1monday) / 7
  let day := (n - week1monday) % 7
  if week < 0 then
    let year2 := year - 1
    let w1m2 := isoweek1monday year2
    (year2, (n - w1m2) / 7 + 1, (n - w1m2) % 7 + 1)
  else if 52 ≤ week && isoweek1monday (year + 1) ≤ n then
    (year + 1, 1, day + 1)
  else
    (year, week + 1, day + 1)

/-! ## IEEE-754 binary64 model

`datetime.timestamp()` divides an exact integer count of microseconds by
`10^6` in double precision; the repository then multiplies by 1000 in
double precision and truncates with `int(...)`.  Doubles are modelled as
exact rationals; every intermediate value here is a fraction `a / b`
with `b > 0`, and rounding to 53 significant bits is performed with
integer arithmetic only, so that everything evaluates inside the kernel.
Exponent search is a bounded structural recursion (all quantities in the
program are far below `2 ^ 63`). -/

def flog2Go (n : ℕ) : ℕ → ℕ
  | 0 => 0
  | k + 1 => if 2 ^ (k + 1) ≤ n then k + 1 else flog2Go n k

/-- Floor of the base-2 logarithm for `1 ≤ n < 2 ^ 64`. -/
def floorLog2 (n : ℕ) : ℕ := flog2Go n 63

/-- Round `a / b` (with `b > 0`) to the nearest integer, ties to even. -/
def rheDiv (a b : Int) : Int :=
  if 2 * (a % b) < b then a / b
  else if b < 2 * (a % b) then a / b + 1
  else if (a / b) % 2 == 0 then a / b
  else a / b + 1

/-- Round the nonnegative fraction `a / b` to 53 significant bits
(round to nearest, ties to even), returned as a fraction whose
denominator is a power of two. -/
def rndPosFrac (a b : Int) : Int × Int :=
  if floorLog2 (a / b).toNat ≤ 52 then
    (rheDiv (a * 2 ^ (52 - floorLog2 (a / b).toNat)) b,
      2 ^ (52 - floorLog2 (a / b).toNat))
  else
    (rheDiv a (b * 2 ^ (floorLog2 (a / b).toNat - 52))
        * 2 ^ (floorLog2 (a / b).toNat - 52), 1)

/-- Round the fraction `a / b` (with `b > 0`) to binary64 precision. -/
def rndFrac (a b : Int) : Int × Int :=
  if a < 0 then (-(rndPosFrac (-a) b).1, (rndPosFrac (-a) b).2)
  else rndPosFrac a b

/-- Python `int(x)` on a fraction: truncation toward zero. -/
def pyTruncFrac (a b : Int) : Int :=
  if a < 0 then -((-a) / b) else a / b

/-- `int(datetime.timestamp() * 1000)` for an instant lying `us`
microseconds from the epoch: the exact microsecond count is divided by
`10^6` in binary64, multiplied by `1000` in binary64, then truncated. -/
def pyTimestampMs (us : Int) : Int :=
  let d1 := rndFrac us 1000000
  let d2 := rndFrac (d1.1 * 1000) d1.2
  pyTruncFrac d2.1 d2.2

/-! ## DateUtils (src/lib_date_utils.py) -/

/-- Epoch ordinal: `date(1970, 1, 1).toordinal()`. -/
def epochOrdinal : Int := 719163

/-- `DateUtils.iso_week_range_utc(year, week)`.  The Python function
returns `(monday_iso, friday_iso, start_ms, finish_ms)`; the two ISO
date strings are represented by the ordinals of the Monday and the
Friday.  `none` models the `ValueError` escaping from
`date.fromisocalendar`. -/
def iso_week_range_utc (year week : Int) : Option (Int × Int × Int × Int) :=
  match fromisocalendarOrd year week 1, fromisocalendarOrd year week 5 with
  | some monday, some friday =>
      let startUs := (monday - epochOrdinal) * 86400000000
      let finishUs := (friday - epochOrdinal) * 86400000000 + 86399999000
      some (monday, friday, pyTimestampMs startUs, pyTimestampMs finishUs)
  | _, _ => none

/-- `DateUtils.parse_year_week(spec)`: split on a dot, convert both parts
with `int(...)`, require the week in 1..53; any failure becomes one
`argparse.ArgumentTypeError`. -/
def parse_year_week (spec : List Char) : Option (Int × Int) :=
  match splitOnDot spec with
  | [ys, ws] =>
      match pyInt ys, pyInt ws with
      | some y, some w => if 1 ≤ w && w ≤ 53 then some (y, w) else none
      | _, _ => none
  | _ => none

/-- Decimal digits of a natural number (fuel-driven structural
recursion; `fuel` at least the digit count). -/
def natDigitsGo (fuel : ℕ) (n : ℕ) (acc : List Char) : List Char :=
  match fuel with
  | 0 => acc
  | f + 1 =>
      if n < 10 then Char.ofNat (48 + n) :: acc
      else natDigitsGo f (n / 10) (Char.ofNat (48 + n % 10) :: acc)

/-- Python `str(i)` for an integer. -/
def intStr (i : Int) : List Char :=
  if i < 0 then '-' :: natDigitsGo 40 (-i).toNat []
  else natDigitsGo 40 i.toNat []

/-- Python `f"{week:02d}"`: pad to width 2 with a leading zero. -/
def pad2 (w : Int) : List Char :=
  let s := intStr w
  if s.length < 2 then '0' :: s else s

/-- `DateUtils.format_sprint_name(year, week)` producing
`"YYYY.WW Sprint"` as a character list. -/
def format_sprint_name (year week : Int) : List Char :=
  intStr year ++ '.' :: pad2 week ++ [' ', 'S', 'p', 'r', 'i', 'n', 't']

/-- `DateUtils.process_week_parameter(week_arg)`: parse the explicit
week or fall back to the current week (`todayOrd` is the ordinal of the
current UTC date used by `get_current_week`), then compute the sprint
name and the week range.  `none` models the exception paths
(`ArgumentTypeError` or `ValueError`). -/
def process_week_parameter (todayOrd : Int) (weekArg : Option (List Char)) :
    Option (Int × Int × List Char × Int × Int × Int × Int) :=
  let yw : Option (Int × Int) :=
    match weekArg with
    | some s => parse_year_week s
    | none => some ((isocalendarOfOrd todayOrd).1, (isocalendarOfOrd todayOrd).2.1)
  match yw with
  | none => none
  | some (y, w) =>
      match iso_week_range_utc y w with
      | none => none
      | some (monday, friday, startMs, finishMs) =>
          some (y, w, format_sprint_name y w, monday, friday, startMs, finishMs)

/-! ## Python exceptions

`SystemExit` derives from `BaseException` but not from `Exception`;
the other exceptions raised in the embedded code are `Exception`
subclasses (`requests.HTTPError`, `ValueError`,
`argparse.ArgumentTypeError`). -/

inductive PyExc where
  | systemExit (code : Int)
  | httpError
  | valueError
  | argTypeError
deriving DecidableEq

/-- Whether `except Exception` catches the exception. -/
def PyExc.isException : PyExc → Bool
  | .systemExit _ => false
  | _ => true

deriving instance DecidableEq for Except

/-! ## Lexicographic string order (Python `sorted` on `str`) -/

def lexLe : List Char → List Char → Bool
  | [], _ => true
  | _ :: _, [] => false
  | a :: as, b :: bs =>
      if a.toNat < b.toNat then true
      else if b.toNat < a.toNat then false
      else lexLe as bs

def strLeRel (a b : String) : Prop := lexLe a.data b.data = true

instance : DecidableRel strLeRel := fun a b => by
  unfold strLeRel; infer_instance

/-- Python `sorted(...)` on a collection of strings. -/
def sortedStr (l : List String) : List String := List.insertionSort strLeRel l

/-! ## The remote YouTrack world and the gateway trace

The engine only observes the remote service through the
`YouTrackAPI` methods; the remote state is embedded as an explicit
`World`, and every gateway call is recorded as an `Event`.  Sprint,
board, project and field names are `List Char` (Python `str`); entity
ids are `String`. -/

structure Sprint where
  id : String
  name : List Char
  startMs : Int
  finishMs : Int
deriving DecidableEq

structure Board where
  id : String
  name : List Char
  sprints : List Sprint
deriving DecidableEq

structure BundleValue where
  id : String
  name : List Char
deriving DecidableEq

structure ProjectField where
  id : String
  fieldName : List Char
  values : List BundleValue
  defaults : List String
deriving DecidableEq

structure Project where
  id : String
  name : List Char
  fields : List ProjectField
deriving DecidableEq

structure World where
  boards : List Board
  projects : List Project
deriving DecidableEq

inductive Event where
  | getBoards
  | getSprints (boardId : String)
  | createSprint (boardId : String) (name : List Char) (startMs finishMs : Int)
  | getProjects
  | getProjectFields (projectId : String)
  | getDefaults (projectId fieldId : String)
  | deleteDefault (projectId fieldId valueId : String)
  | postDefault (projectId fieldId valueId : String)
deriving DecidableEq

/-- Mutating sprint-creation request. -/
def Event.isCreate : Event → Bool
  | .createSprint _ _ _ _ => true
  | _ => false

/-- Mutating default-value request (removal or addition). -/
def Event.isDefaultMutation : Event → Bool
  | .deleteDefault _ _ _ => true
  | .postDefault _ _ _ => true
  | _ => false

/-- Any mutating request. -/
def Event.isMutation (e : Event) : Bool := e.isCreate || e.isDefaultMutation

/-! ## YouTrackAPI (src/ytsprint/lib_yt_api.py) -/

/-- `YouTrackAPI.find_board_id`: first board whose name matches. -/
def find_board_id (w : World) (name : List Char) : Option String :=
  (w.boards.find? (fun b => b.name == name)).map (fun b => b.id)

def boardById (w : World) (bid : String) : Option Board :=
  w.boards.find? (fun b => b.id == bid)

/-- `YouTrackAPI.find_sprint_id`. -/
def find_sprint_id (w : World) (bid : String) (name : List Char) : Option String :=
  match boardById w bid with
  | none => none
  | some b => (b.sprints.find? (fun s => s.name == name)).map (fun s => s.id)

/-- `YouTrackAPI.sprint_exists`. -/
def sprint_exists (w : World) (bid : String) (name : List Char) : Bool :=
  (find_sprint_id w bid name).isSome

/-- `YouTrackAPI.find_project_id`. -/
def find_project_id (w : World) (name : List Char) : Option String :=
  (w.projects.find? (fun p => p.name == name)).map (fun p => p.id)

def projectById (w : World) (pid : String) : Option Project :=
  w.projects.find? (fun p => p.id == pid)

/-- `YouTrackAPI.find_bundle_value_by_name`. -/
def find_bundle_value_by_name (values : List BundleValue) (name : List Char) :
    Option String :=
  (values.find? (fun v => v.name == name)).map (fun v => v.id)

/-- Effect on the remote state of `YouTrackAPI.create_sprint`; the id the
server assigns to the new sprint is modelled as the name itself. -/
def create_sprint (w : World) (bid : String) (name : List Char)
    (startMs finishMs : Int) : World :=
  { w with
    boards := w.boards.map (fun b =>
      if b.id == bid then
        { b with sprints := b.sprints ++ [⟨String.mk name, name, startMs, finishMs⟩] }
      else b) }

def lookupProjectField (w : World) (pid fid : String) : Option ProjectField :=
  match projectById w pid with
  | none => none
  | some p => p.fields.find? (fun f => f.id == fid)

def mapProjectField (w : World) (pid fid : String)
    (g : ProjectField → ProjectField) : World :=
  { w with
    projects := w.projects.map (fun p =>
      if p.id == pid then
        { p with fields := p.fields.map (fun f => if f.id == fid then g f else f) }
      else p) }

def removeDefault (w : World) (pid fid vid : String) : World :=
  mapProjectField w pid fid (fun f =>
    { f with defaults := f.defaults.filter (fun d => !(d == vid)) })

def addDefault (w : World) (pid fid vid : String) : World :=
  mapProjectField w pid fid (fun f => { f with defaults := f.defaults ++ [vid] })

/-- `YouTrackAPI.delete`: given the status code the server answers with,
return it when it is 200, 204 or 404, raise `requests.HTTPError` via
`raise_for_status()` when it is any other 4xx/5xx status, and return the
status otherwise. -/
def delete (status : ℕ) : Except PyExc ℕ :=
  if status == 200 || status == 204 || status == 404 then .ok status
  else if 400 ≤ status && status < 600 then .error .httpError
  else .ok status

/-- Removal loop of `update_field_default_values`: delete each id in
order, treating 200/204/404 as success, aborting on an HTTP error.
`ds` is the status code the server answers each DELETE with. -/
def runDeletes (ds : String → ℕ) (w : World) (pid fid : String) :
    List String → Except PyExc World × List Event
  | [] => (.ok w, [])
  | vid :: rest =>
      let ev := Event.deleteDefault pid fid vid
      match delete (ds vid) with
      | .error e => (.error e, [ev])
      | .ok _ =>
          let r := runDeletes ds (removeDefault w pid fid vid) pid fid rest
          (r.1, ev :: r.2)

/-- Addition loop of `update_field_default_values` (the server is
modelled as accepting every POST). -/
def runPosts (w : World) (pid fid : String) : List String → World × List Event
  | [] => (w, [])
  | vid :: rest =>
      let r := runPosts (addDefault w pid fid vid) pid fid rest
      (r.1, Event.postDefault pid fid vid :: r.2)

/-- The set `current_ids = {d.get("id") for d in defaults if d.get("id")}`
of `update_field_default_values`, as a duplicate-free list. -/
def currentIdsOf (pf : ProjectField) : List String :=
  (pf.defaults.filter (fun d => !(d == ""))).dedup

/-- `sorted(to_remove)` where `to_remove = current_ids - desired_ids`. -/
def toRemoveOf (pf : ProjectField) (value_ids : List String) : List String :=
  sortedStr ((currentIdsOf pf).filter (fun i => !(value_ids.contains i)))

/-- `sorted(to_add)` where `to_add = desired_ids - current_ids`. -/
def toAddOf (pf : ProjectField) (value_ids : List String) : List String :=
  sortedStr (value_ids.dedup.filter (fun i => !((currentIdsOf pf).contains i)))

/-- `YouTrackAPI.update_field_default_values`: fetch the current
default-value ids, diff them against the desired ids as sets, return
early when nothing changes, otherwise delete the stale ids in ascending
order and then add the missing ids in ascending order. -/
def update_field_default_values (ds : String → ℕ) (w : World)
    (pid fid : String) (value_ids : List String) :
    Except PyExc World × List Event :=
  let fetch := [Event.getDefaults pid fid]
  match lookupProjectField w pid fid with
  | none => (.error .httpError, fetch)
  | some pf =>
      let to_remove := toRemoveOf pf value_ids
      let to_add := toAddOf pf value_ids
      if to_remove.isEmpty && to_add.isEmpty then (.ok w, fetch)
      else
        let rem := runDeletes ds w pid fid to_remove
        match rem.1 with
        | .error e => (.error e, fetch ++ rem.2)
        | .ok w2 =>
            let add := runPosts w2 pid fid to_add
            (.ok add.1, fetch ++ rem.2 ++ add.2)

/-- `YouTrackAPI.get_field_defaults` (read-only). -/
def get_field_defaults (w : World) (pid fid : String) :
    Except PyExc (List String) × List Event :=
  match lookupProjectField w pid fid with
  | none => (.error .httpError, [Event.getDefaults pid fid])
  | some pf => (.ok pf.defaults, [Event.getDefaults pid fid])

/-! ## SprintService (src/ytsprint/lib_sprint.py)

Every service call returns the outcome (`.ok` with the updated world, or
the escaping `PyExc`) together with the full trace of gateway calls made
before returning, including the calls made before an exception. -/

/-- `SprintService.ensure_sprint_on_board`: resolve the board (exit 1 if
missing), look the sprint up by name, create it only when absent. -/
def ensure_sprint_on_board (w : World) (boardName sprintName : List Char)
    (startMs finishMs : Int) : Except PyExc World × List Event :=
  match find_board_id w boardName with
  | none => (.error (.systemExit 1), [.getBoards])
  | some bid =>
      match find_sprint_id w bid sprintName with
      | none =>
          (.ok (create_sprint w bid sprintName startMs finishMs),
           [.getBoards, .getSprints bid, .createSprint bid sprintName startMs finishMs])
      | some _ => (.ok w, [.getBoards, .getSprints bid])

/-- `SprintService.set_project_default_sprint`: resolve project, field
and bundle value by name (exit 1 if any is missing), then reconcile the
default-value set to exactly the matched value id. -/
def set_project_default_sprint (ds : String → ℕ) (w : World)
    (projectName fieldName sprintName : List Char) :
    Except PyExc (String × String × World) × List Event :=
  match find_project_id w projectName with
  | none => (.error (.systemExit 1), [.getProjects])
  | some pid =>
      match projectById w pid with
      | none => (.error .httpError, [.getProjects, .getProjectFields pid])
      | some proj =>
          match proj.fields.find? (fun f => f.fieldName == fieldName) with
          | none => (.error (.systemExit 1), [.getProjects, .getProjectFields pid])
          | some pf =>
              match find_bundle_value_by_name pf.values sprintName with
              | none => (.error (.systemExit 1), [.getProjects, .getProjectFields pid])
              | some vid =>
                  let upd := update_field_default_values ds w pid pf.id [vid]
                  match upd.1 with
                  | .error e =>
                      (.error e, .getProjects :: .getProjectFields pid :: upd.2)
                  | .ok w2 =>
                      (.ok (pid, pf.id, w2),
                       .getProjects :: .getProjectFields pid :: upd.2)

/-- `SprintService.verify_project_default` (read-only). -/
def verify_project_default (w : World) (pid fid : String) :
    Except PyExc Unit × List Event :=
  match lookupProjectField w pid fid with
  | none => (.error .httpError, [Event.getDefaults pid fid])
  | some _ => (.ok (), [Event.getDefaults pid fid])

/-- Sprint name the forward-provisioning loop derives for the Monday
`7 * i` days after the base Monday `m`: the ISO year and week of that
Monday are re-derived with `date.isocalendar()` and formatted. -/
def derivedName (m : Int) (i : ℕ) : List Char :=
  format_sprint_name (isocalendarOfOrd (m + 7 * (i : Int))).1
    (isocalendarOfOrd (m + 7 * (i : Int))).2.1

/-- Loop body of `SprintService.ensure_future_sprints` for offsets
`o, o + 1, ...` with `rem` iterations left: re-derive the ISO year and
week of the Monday `7 * o` days after the base Monday, skip the week if
its sprint exists, create it otherwise. -/
def futureGo (ds : String → ℕ) (bid : String) (baseMonday : Int) :
    (w : World) → (o : ℕ) → (rem : ℕ) → Except PyExc World × List Event
  | w, _, 0 => (.ok w, [])
  | w, o, rem + 1 =>
      let t := isocalendarOfOrd (baseMonday + 7 * (o : Int))
      let name := derivedName baseMonday o
      match iso_week_range_utc t.1 t.2.1 with
      | none => (.error .valueError, [])
      | some (_, _, startMs, finishMs) =>
          if sprint_exists w bid name then
            let r := futureGo ds bid baseMonday w (o + 1) rem
            (r.1, .getSprints bid :: r.2)
          else
            let w2 := create_sprint w bid name startMs finishMs
            let r := futureGo ds bid baseMonday w2 (o + 1) rem
            (r.1, .getSprints bid :: .createSprint bid name startMs finishMs :: r.2)

/-- `SprintService.ensure_future_sprints`: return immediately when
`count <= 0`, otherwise resolve the board (exit 1 if missing) and ensure
the next `count` ISO-week sprints exist, each week derived by adding a
multiple of 7 days to the base Monday and re-deriving its ISO year and
week. -/
def ensure_future_sprints (ds : String → ℕ) (w : World) (boardName : List Char)
    (baseYear baseWeek count : Int) : Except PyExc World × List Event :=
  if count ≤ 0 then (.ok w, [])
  else
    match find_board_id w boardName with
    | none => (.error (.systemExit 1), [.getBoards])
    | some bid =>
        match fromisocalendarOrd baseYear baseWeek 1 with
        | none => (.error .valueError, [.getBoards])
        | some baseMonday =>
            let r := futureGo ds bid baseMonday w 1 count.toNat
            (r.1, .getBoards :: r.2)

/-- `SprintService.run_sync_once`: resolve the target week, ensure its
sprint exists on the board, switch the project default, verify it, then
ensure `max 0 forward` future sprints. -/
def run_sync_once (ds : String → ℕ) (todayOrd : Int) (w : World)
    (board project field : List Char) (week : Option (List Char)) (forward : Int) :
    Except PyExc World × List Event :=
  match process_week_parameter todayOrd week with
  | none => (.error .argTypeError, [])
  | some (year, weekNum, sprintName, _, _, startMs, finishMs) =>
      let e1 := ensure_sprint_on_board w board sprintName startMs finishMs
      match e1.1 with
      | .error e => (.error e, e1.2)
      | .ok w1 =>
          let e2 := set_project_default_sprint ds w1 project field sprintName
          match e2.1 with
          | .error e => (.error e, e1.2 ++ e2.2)
          | .ok (pid, fid, w2) =>
              let e3 := verify_project_default w2 pid fid
              match e3.1 with
              | .error e => (.error e, e1.2 ++ e2.2 ++ e3.2)
              | .ok _ =>
                  let e4 := ensure_future_sprints ds w2 board year weekNum (max 0 forward)
                  (e4.1, e1.2 ++ e2.2 ++ e3.2 ++ e4.2)

/-- `SprintService.create_sprint_for_week`: resolve the week and the
board (exit 1 if the board is missing); when the sprint already exists
the run terminates through `sys.exit(0)` (a `SystemExit` with code 0)
without issuing a create call, otherwise the sprint is created. -/
def create_sprint_for_week (todayOrd : Int) (w : World) (boardName : List Char)
    (weekParam : Option (List Char)) : Except PyExc World × List Event :=
  match process_week_parameter todayOrd weekParam with
  | none => (.error .argTypeError, [])
  | some (_, _, sprintName, _, _, startMs, finishMs) =>
      match find_board_id w boardName with
      | none => (.error (.systemExit 1), [.getBoards])
      | some bid =>
          if sprint_exists w bid sprintName then
            (.error (.systemExit 0), [.getBoards, .getSprints bid])
          else
            (.ok (create_sprint w bid sprintName startMs finishMs),
             [.getBoards, .getSprints bid,
              .createSprint bid sprintName startMs finishMs])

/-! ## DaemonRunner (src/ytsprint/lib_daemon.py)

`_init_metrics` creates the shared state
`{"last_run_ts": None, "last_status": 0.0}`; `_job_wrapper` records the
invocation time, runs the job under `except Exception`, and in a
`finally` block writes `0.0 if state["last_status"] is None else
float(state["last_status"])` to the status gauge.  Gauge values are the
floats 0.0/1.0 only, so they are embedded as integers; the wall-clock
reading `time.time()` is an opaque parameter `now`. -/

structure DaemonState where
  last_run_ts : Option Int
  last_status : Option Int
deriving DecidableEq

/-- Shared state as initialized by `DaemonRunner._init_metrics`. -/
def initMetricsState : DaemonState := { last_run_ts := none, last_status := some 0 }

/-- Value the `finally` block writes to the status gauge. -/
def finallyVal (st : DaemonState) : Int :=
  match st.last_status with
  | none => 0
  | some v => v

structure WrapperResult where
  state : DaemonState
  gaugeWrites : List Int
  escaped : Option PyExc
deriving DecidableEq

/-- `DaemonRunner.start._job_wrapper` applied to one tick whose job
outcome is `jobResult`: `.ok` marks success, an `Exception` is caught
and marks failure, and any other `BaseException` (such as `SystemExit`)
skips both branches and escapes after the `finally` block has written
the gauge. -/
def jobWrapper (now : Int) (jobResult : Except PyExc Unit) (st : DaemonState) :
    WrapperResult :=
  let stStart := { st with last_run_ts := some now }
  match jobResult with
  | .ok _ =>
      let st2 := { stStart with last_status := some 1 }
      ⟨st2, [finallyVal st2], none⟩
  | .error e =>
      if e.isException then
        let st2 := { stStart with last_status := some 0 }
        ⟨st2, [finallyVal st2], none⟩
      else
        ⟨stStart, [finallyVal stStart], some e⟩

/-! ## Derived week advance

`ensure_future_sprints` advances weeks by adding a multiple of 7 days to
the base Monday (`date.fromisocalendar(base_year, base_week, 1)`) and
re-deriving the ISO calendar fields of the result (lines 185-188 of
src/ytsprint/lib_sprint.py); `nextWeek` names that computation. -/

def nextWeek (year week offset : Int) : Option (Int × Int) :=
  (fromisocalendarOrd year week 1).map (fun monday =>
    let t := isocalendarOfOrd (monday + 7 * offset)
    (t.1, t.2.1))

/-! ## Concrete fixtures for the scenario claims -/

def sampleField : ProjectField :=
  { id := "F1"
    fieldName := "Sprints".toList
    values := [⟨"V30", "2025.30 Sprint".toList⟩, ⟨"V31", "2025.31 Sprint".toList⟩]
    defaults := [] }

/-- Board "Board" with no sprints, project "Project" whose field
"Sprints" has bundle values for weeks 2025.30 and 2025.31 and no current
defaults. -/
def sampleWorld : World :=
  { boards := [⟨"B1", "Board".toList, []⟩]
    projects := [⟨"P1", "Project".toList, [sampleField]⟩] }

/-- All DELETE requests are answered 204. -/
def allOk204 : String → ℕ := fun _ => 204

/-- World identical to `sampleWorld` except that the sprint
"2025.30 Sprint" already exists on the board. -/
def sampleWorldWithSprint : World :=
  { boards := [⟨"B1", "Board".toList,
      [⟨"S30", "2025.30 Sprint".toList, 1753056000000, 1753487999999⟩]⟩]
    projects := [⟨"P1", "Project".toList, [sampleField]⟩] }

end YT

namespace YT

example : nextWeek 2023 51 1 = some (2023, 52) := by decide
example : nextWeek 2023 51 2 = some (2024, 1) := by decide
example : nextWeek 2026 52 1 = some (2026, 53) := by decide
example : nextWeek 2026 52 2 = some (2027, 1) := by decide

example :
    ((run_sync_once allOk204 0 sampleWorld "Board".toList "Project".toList
        "Sprints".toList (some "2025.30".toList) 1).2.filter Event.isCreate).length
      = 2 := by decide

example :
    (run_sync_once allOk204 0 sampleWorld "Board".toList "Project".toList
        "Sprints".toList (some "2025.30".toList) 1).2.filter Event.isDefaultMutation
      = [.postDefault "P1" "F1" "V30"] := by decide

example :
    (run_sync_once allOk204 0 sampleWorld "Board".toList "Project".toList
        "Sprints".toList (some "2025.30".toList) 1).1.isOk = true := by decide

example : pyInt "2025".toList = some 2025 := by decide
example : pyInt "  -2_5 ".toList = some (-25) := by decide
example : pyInt "2 5".toList = none := by decide
example : parse_year_week "2025.30".toList = some (2025, 30) := by decide
example : parse_year_week "2025.5".toList = some (2025, 5) := by decide
example : parse_year_week "2025.54".toList = none := by decide
example : fromisocalendarOrd 2025 30 1 = some 739453 := by decide
example : fromisocalendarOrd 1987 2 5 = some 725380 := by decide
example : isocalendarOfOrd (739453 + 7) = (2025, 31, 1) := by decide
example : pyTimestampMs ((725380 - 719163) * 86400000000 + 86399999000) = 537235199998 := by decide
example : pyTimestampMs ((739453 - 719163) * 86400000000) = 1753056000000 := by decide
example : format_sprint_name 2025 5 = "2025.05 Sprint".toList := by decide

end YT

namespace YT

/-! ## Claim C9 -/

/-- Claim C9: for every forward count at most zero, `ensure_future_sprints`
returns immediately: the world is unchanged, no gateway call at all is
recorded (in particular the board is not looked up), and no error is
raised even when the board does not exist. -/
theorem C9_ensure_future_sprints_nonpositive (ds : String → ℕ) (w : World)
    (boardName : List Char) (baseYear baseWeek count : Int) (h : count ≤ 0) :
    ensure_future_sprints ds w boardName baseYear baseWeek count = (.ok w, []) := by
  unfold ensure_future_sprints
  simp [h]

/-- Witness for C9 at a concrete input: a world with no boards at all,
count `-3`. -/
theorem C9_witness :
    ensure_future_sprints allOk204 ⟨[], []⟩ ("Board".toList) 2025 30 (-3)
      = (.ok ⟨[], []⟩, []) :=
  C9_ensure_future_sprints_nonpositive allOk204 ⟨[], []⟩ ("Board".toList) 2025 30 (-3)
    (by decide)

/-! ## Claim C10 -/

/-- Claim C10: after every invocation of the daemon job wrapper the
status gauge has been written exactly once (from the `finally` block)
with a value that is 0 or 1 — provided the stored status satisfies the
invariant established by `_init_metrics` and preserved by every tick —
and when the job escapes with a `BaseException` that is not an
`Exception` (such as `SystemExit`) the value written is the previous
status, not 0. -/
theorem C10_jobWrapper_gauge (now : Int) (res : Except PyExc Unit)
    (st : DaemonState) (hinv : st.last_status = some 0 ∨ st.last_status = some 1) :
    ((jobWrapper now res st).gaugeWrites = [0] ∨
      (jobWrapper now res st).gaugeWrites = [1]) ∧
    ((jobWrapper now res st).state.last_status = some 0 ∨
      (jobWrapper now res st).state.last_status = some 1) ∧
    (∀ c, res = .error (.systemExit c) →
      (jobWrapper now res st).gaugeWrites = [finallyVal st]) := by
  rcases res with e | u
  · rcases e with c | _ | _ | _ <;>
      rcases hinv with h | h <;>
        simp [jobWrapper, PyExc.isException, finallyVal, h]
  · simp [jobWrapper, finallyVal]

/-- Witness for C10 at a concrete input: a `SystemExit 2` escaping a tick
whose previous status was 1 leads to the gauge being rewritten with 1. -/
theorem C10_witness :
    ((jobWrapper 7 (.error (.systemExit 2)) ⟨some 3, some 1⟩).gaugeWrites = [0] ∨
      (jobWrapper 7 (.error (.systemExit 2)) ⟨some 3, some 1⟩).gaugeWrites = [1]) ∧
    ((jobWrapper 7 (.error (.systemExit 2)) ⟨some 3, some 1⟩).state.last_status = some 0 ∨
      (jobWrapper 7 (.error (.systemExit 2)) ⟨some 3, some 1⟩).state.last_status = some 1) ∧
    (∀ c, (.error (.systemExit 2) : Except PyExc Unit) = .error (.systemExit c) →
      (jobWrapper 7 (.error (.systemExit 2)) ⟨some 3, some 1⟩).gaugeWrites
        = [finallyVal ⟨some 3, some 1⟩]) :=
  C10_jobWrapper_gauge 7 (.error (.systemExit 2)) ⟨some 3, some 1⟩ (Or.inr rfl)

/-! ## Claim C2 -/

/-- Counterexample to claim C2 as stated: a board-not-found failure of
the reconciliation job raises `SystemExit 1`, which the job wrapper's
`except Exception` clause does not catch: the exception escapes the
wrapper and the status gauge keeps the previous status 1 instead of
recording failure status 0. -/
theorem C2_counterexample :
    (ensure_sprint_on_board ⟨[], []⟩ ("Board".toList) ("2025.30 Sprint".toList)
        1753056000000 1753487999999).1 = .error (.systemExit 1) ∧
    jobWrapper 0 (.error (.systemExit 1)) ⟨some 9, some 1⟩
      = ⟨⟨some 0, some 1⟩, [1], some (.systemExit 1)⟩ ∧
    (some (PyExc.systemExit 1) ≠ (none : Option PyExc)) ∧
    ((1 : Int) ≠ 0) := by
  refine ⟨by decide, by decide, by decide, by decide⟩

/-- Claim C2 (amended): every `Exception` raised by the job during a
tick is caught by the wrapper, recorded as failure status 0, and does
not escape; a not-found failure, however, raises `SystemExit` — not an
`Exception` — which escapes the wrapper uncaught, with the `finally`
block writing the previous status to the gauge rather than 0. -/
theorem C2_jobWrapper_amended (now : Int) (res : Except PyExc Unit)
    (st : DaemonState) :
    (∀ e, res = .error e → e.isException = true →
      jobWrapper now res st
        = ⟨⟨some now, some 0⟩, [0], none⟩) ∧
    (res = .ok () →
      jobWrapper now res st = ⟨⟨some now, some 1⟩, [1], none⟩) ∧
    (∀ c, res = .error (.systemExit c) →
      jobWrapper now res st
        = ⟨⟨some now, st.last_status⟩, [finallyVal st], some (.systemExit c)⟩) ∧
    (∀ w boardName sprintName startMs finishMs,
      find_board_id w boardName = none →
      (ensure_sprint_on_board w boardName sprintName startMs finishMs).1
          = .error (.systemExit 1) ∧
        PyExc.isException (.systemExit 1) = false) := by
  refine ⟨?_, ?_, ?_, ?_⟩
  · rintro e rfl he
    rcases e with c | _ | _ | _ <;> simp_all [jobWrapper, PyExc.isException, finallyVal]
  · rintro rfl; simp [jobWrapper, finallyVal]
  · rintro c rfl; simp [jobWrapper, PyExc.isException, finallyVal]
  · intro w bn sn s f h
    unfold ensure_sprint_on_board
    simp [h, PyExc.isException]

/-- Witness for C2 (amended) at concrete inputs: an `HTTPError` from the
job is caught and recorded as status 0. -/
theorem C2_witness :
    (∀ e, (.error .httpError : Except PyExc Unit) = .error e → e.isException = true →
      jobWrapper 4 (.error .httpError) ⟨none, some 1⟩
        = ⟨⟨some 4, some 0⟩, [0], none⟩) ∧
    ((.error .httpError : Except PyExc Unit) = .ok () →
      jobWrapper 4 (.error .httpError) ⟨none, some 1⟩ = ⟨⟨some 4, some 1⟩, [1], none⟩) ∧
    (∀ c, (.error .httpError : Except PyExc Unit) = .error (.systemExit c) →
      jobWrapper 4 (.error .httpError) ⟨none, some 1⟩
        = ⟨⟨some 4, some 1⟩, [finallyVal ⟨none, some 1⟩], some (.systemExit c)⟩) ∧
    (∀ w boardName sprintName startMs finishMs,
      find_board_id w boardName = none →
      (ensure_sprint_on_board w boardName sprintName startMs finishMs).1
          = .error (.systemExit 1) ∧
        PyExc.isException (.systemExit 1) = false) :=
  C2_jobWrapper_amended 4 (.error .httpError) ⟨none, some 1⟩

/-! ## Claim C5 -/

/-- Claim C5: for the run with week "2025.30" and forward = 1 against a
world where neither "2025.30 Sprint" nor "2025.31 Sprint" exists on the
board and the bundle contains the 2025.30 value, one synchronization
pass succeeds, issues exactly the two sprint-create calls for the
current week and the one forward week, and exactly one default-set
mutation, pointing at the 2025.30 value. -/
theorem C5_run_sync_once_scenario :
    ((run_sync_once allOk204 0 sampleWorld "Board".toList "Project".toList
        "Sprints".toList (some "2025.30".toList) 1).2.filter Event.isCreate
      = [.createSprint "B1" ("2025.30 Sprint".toList) 1753056000000 1753487999999,
         .createSprint "B1" ("2025.31 Sprint".toList) 1753660800000 1754092799999]) ∧
    ((run_sync_once allOk204 0 sampleWorld "Board".toList "Project".toList
        "Sprints".toList (some "2025.30".toList) 1).2.filter Event.isDefaultMutation
      = [.postDefault "P1" "F1" "V30"]) ∧
    (run_sync_once allOk204 0 sampleWorld "Board".toList "Project".toList
        "Sprints".toList (some "2025.30".toList) 1).1.isOk = true := by
  refine ⟨by decide, by decide, by decide⟩

/-! ## Claim C6 -/

/-- Claim C6: whenever `create_sprint_for_week` is invoked for a week
whose sprint name already exists on the board, the run terminates in the
distinguished `SystemExit 0` outcome ("already exists", not an error and
distinct from the plain success of a run that created the sprint), and
the trace contains the two lookups and no create call. -/
theorem C6_create_sprint_for_week_exists (todayOrd : Int) (w : World)
    (boardName : List Char) (weekParam : Option (List Char))
    (year weekNum : Int) (sprintName : List Char) (monday friday startMs finishMs : Int)
    (bid : String)
    (hweek : process_week_parameter todayOrd weekParam
      = some (year, weekNum, sprintName, monday, friday, startMs, finishMs))
    (hboard : find_board_id w boardName = some bid)
    (hexists : sprint_exists w bid sprintName = true) :
    create_sprint_for_week todayOrd w boardName weekParam
      = (.error (.systemExit 0), [.getBoards, .getSprints bid]) ∧
    ((create_sprint_for_week todayOrd w boardName weekParam).2.filter
        Event.isCreate = []) := by
  unfold create_sprint_for_week
  rw [hweek, hboard]
  simp [hexists, Event.isCreate, List.filter]

/-- Witness for C6 at a concrete input: the sample world in which
"2025.30 Sprint" already exists on the board. -/
theorem C6_witness :
    create_sprint_for_week 0 sampleWorldWithSprint ("Board".toList)
        (some "2025.30".toList)
      = (.error (.systemExit 0), [.getBoards, .getSprints "B1"]) ∧
    ((create_sprint_for_week 0 sampleWorldWithSprint ("Board".toList)
        (some "2025.30".toList)).2.filter Event.isCreate = []) :=
  C6_create_sprint_for_week_exists 0 sampleWorldWithSprint ("Board".toList)
    (some "2025.30".toList) 2025 30 ("2025.30 Sprint".toList)
    739453 739457 1753056000000 1753487999999 "B1"
    (by decide) (by decide) (by decide)

end YT

namespace YT

/-! ## Order lemmas for the string sort -/

theorem lexLe_nil (b : List Char) : lexLe [] b = true := by
  cases b <;> rfl

theorem lexLe_cons_iff (x y : Char) (xs ys : List Char) :
    lexLe (x :: xs) (y :: ys) = true ↔
      x.toNat < y.toNat ∨ (x.toNat = y.toNat ∧ lexLe xs ys = true) := by
  simp only [lexLe]
  split_ifs with h1 h2
  · exact iff_of_true rfl (Or.inl h1)
  · refine iff_of_false (by simp) ?_
    rintro (h | ⟨h, _⟩) <;> omega
  · have hxy : x.toNat = y.toNat := by omega
    refine ⟨fun h => Or.inr ⟨hxy, h⟩, fun h => ?_⟩
    rcases h with h | ⟨_, h⟩
    · exact absurd h h1
    · exact h

theorem lexLe_total (a : List Char) : ∀ b, lexLe a b = true ∨ lexLe b a = true := by
  induction a with
  | nil => intro b; exact Or.inl (lexLe_nil b)
  | cons x xs ih =>
      intro b
      cases b with
      | nil => exact Or.inr (lexLe_nil _)
      | cons y ys =>
          rcases Nat.lt_trichotomy x.toNat y.toNat with h | h | h
          · exact Or.inl ((lexLe_cons_iff x y xs ys).mpr (Or.inl h))
          · rcases ih ys with h2 | h2
            · exact Or.inl ((lexLe_cons_iff x y xs ys).mpr (Or.inr ⟨h, h2⟩))
            · exact Or.inr ((lexLe_cons_iff y x ys xs).mpr (Or.inr ⟨h.symm, h2⟩))
          · exact Or.inr ((lexLe_cons_iff y x ys xs).mpr (Or.inl h))

theorem lexLe_trans (a : List Char) :
    ∀ b c, lexLe a b = true → lexLe b c = true → lexLe a c = true := by
  induction a with
  | nil => intro b c _ _; exact lexLe_nil c
  | cons x xs ih =>
      intro b c hab hbc
      cases b with
      | nil => simp [lexLe] at hab
      | cons y ys =>
          cases c with
          | nil => simp [lexLe] at hbc
          | cons z zs =>
              rcases (lexLe_cons_iff x y xs ys).mp hab with h1 | ⟨h1, h1r⟩ <;>
                rcases (lexLe_cons_iff y z ys zs).mp hbc with h2 | ⟨h2, h2r⟩ <;>
                  refine (lexLe_cons_iff x z xs zs).mpr ?_
              · exact Or.inl (h1.trans h2)
              · exact Or.inl (by omega)
              · exact Or.inl (by omega)
              · exact Or.inr ⟨by omega, ih ys zs h1r h2r⟩

instance : IsTotal String strLeRel :=
  ⟨fun a b => (lexLe_total a.data b.data).imp id id⟩

instance : IsTrans String strLeRel :=
  ⟨fun a b c hab hbc => lexLe_trans a.data b.data c.data hab hbc⟩

theorem sortedStr_sorted (l : List String) : (sortedStr l).Sorted strLeRel :=
  List.sorted_insertionSort strLeRel l

theorem sortedStr_perm (l : List String) : List.Perm (sortedStr l) l :=
  List.perm_insertionSort strLeRel l

theorem mem_sortedStr (a : String) (l : List String) : a ∈ sortedStr l ↔ a ∈ l :=
  (sortedStr_perm l).mem_iff

theorem sortedStr_nodup (l : List String) (h : l.Nodup) : (sortedStr l).Nodup :=
  ((sortedStr_perm l).nodup_iff).mpr h

theorem pairwiseAnd {α : Type} {R S : α → α → Prop} :
    ∀ {l : List α}, l.Pairwise R → l.Pairwise S →
      l.Pairwise (fun a b => R a b ∧ S a b) := by
  intro l h1 h2
  induction l with
  | nil => exact List.Pairwise.nil
  | cons x xs ih =>
      rcases List.pairwise_cons.mp h1 with ⟨hx1, ht1⟩
      rcases List.pairwise_cons.mp h2 with ⟨hx2, ht2⟩
      exact List.pairwise_cons.mpr ⟨fun a ha => ⟨hx1 a ha, hx2 a ha⟩, ih ht1 ht2⟩

/-- A sorted, duplicate-free list of strings is strictly ascending. -/
theorem sortedStr_strict (l : List String) (h : l.Nodup) :
    (sortedStr l).Pairwise (fun a b => strLeRel a b ∧ a ≠ b) :=
  pairwiseAnd (sortedStr_sorted l) (sortedStr_nodup l h)

end YT

namespace YT

/-! ## Behaviour of the reconciliation loops -/

theorem runPosts_events (pid fid : String) :
    ∀ (ids : List String) (w : World),
      (runPosts w pid fid ids).2 = ids.map (Event.postDefault pid fid) := by
  intro ids
  induction ids with
  | nil => intro w; rfl
  | cons v rest ih => intro w; simp [runPosts, ih]

theorem runDeletes_ok (ds : String → ℕ) (pid fid : String) :
    ∀ (ids : List String) (w : World),
      (∀ v ∈ ids, ds v = 200 ∨ ds v = 204 ∨ ds v = 404) →
      ∃ w2, runDeletes ds w pid fid ids
        = (.ok w2, ids.map (Event.deleteDefault pid fid)) := by
  intro ids
  induction ids with
  | nil => intro w _; exact ⟨w, rfl⟩
  | cons v rest ih =>
      intro w h
      have hv : delete (ds v) = .ok (ds v) := by
        rcases h v (List.mem_cons_self v rest) with h1 | h1 | h1 <;>
          simp [delete, h1]
      have hrest := ih (removeDefault w pid fid v)
        (fun x hx => h x (List.mem_cons_of_mem v hx))
      rcases hrest with ⟨w2, hw2⟩
      refine ⟨w2, ?_⟩
      simp [runDeletes, hv, hw2]

theorem mem_toRemoveOf (pf : ProjectField) (value_ids : List String) (a : String) :
    a ∈ toRemoveOf pf value_ids ↔ a ∈ currentIdsOf pf ∧ a ∉ value_ids := by
  unfold toRemoveOf
  rw [mem_sortedStr, List.mem_filter]
  simp [List.contains]

theorem mem_toAddOf (pf : ProjectField) (value_ids : List String) (a : String) :
    a ∈ toAddOf pf value_ids ↔ a ∈ value_ids ∧ a ∉ currentIdsOf pf := by
  unfold toAddOf
  rw [mem_sortedStr, List.mem_filter]
  simp [List.contains]

theorem toRemoveOf_nodup (pf : ProjectField) (value_ids : List String) :
    (toRemoveOf pf value_ids).Nodup :=
  sortedStr_nodup _ ((List.nodup_dedup _).filter _)

theorem toAddOf_nodup (pf : ProjectField) (value_ids : List String) :
    (toAddOf pf value_ids).Nodup :=
  sortedStr_nodup _ ((List.nodup_dedup _).filter _)

/-- Full unfolding of a successful reconciliation: the trace is the
fetch, then the removals, then the additions. -/
theorem update_trace (ds : String → ℕ) (w : World) (pid fid : String)
    (value_ids : List String) (pf : ProjectField)
    (hpf : lookupProjectField w pid fid = some pf)
    (hds : ∀ v ∈ toRemoveOf pf value_ids, ds v = 200 ∨ ds v = 204 ∨ ds v = 404) :
    (update_field_default_values ds w pid fid value_ids).1.isOk = true ∧
    (update_field_default_values ds w pid fid value_ids).2
      = Event.getDefaults pid fid ::
          ((toRemoveOf pf value_ids).map (Event.deleteDefault pid fid)
            ++ (toAddOf pf value_ids).map (Event.postDefault pid fid)) := by
  unfold update_field_default_values
  rw [hpf]
  by_cases hempty :
      (toRemoveOf pf value_ids).isEmpty && (toAddOf pf value_ids).isEmpty
  · rcases List.isEmpty_iff.mp (Bool.and_elim_left hempty) with h1
    rcases List.isEmpty_iff.mp (Bool.and_elim_right hempty) with h2
    simp [hempty, h1, h2, Except.isOk, Except.toBool]
  · rcases runDeletes_ok ds pid fid (toRemoveOf pf value_ids) w hds with ⟨w2, hw2⟩
    simp [hempty, hw2, runPosts_events, Except.isOk, Except.toBool]

end YT

namespace YT

/-! ## Claim C1 -/

/-- Claim C1: for every current default-value id set and desired id set,
the reconciliation computes the removals as exactly `current - desired`
and the additions as exactly `desired - current`, applies all removals
before any addition, each group in ascending id order, and when the two
sets coincide it issues no mutation request at all: the fetch is the
whole trace and the run reports success with the world unchanged. -/
theorem C1_update_field_default_values (ds : String → ℕ) (w : World)
    (pid fid : String) (value_ids : List String) (pf : ProjectField)
    (hpf : lookupProjectField w pid fid = some pf)
    (hds : ∀ v ∈ toRemoveOf pf value_ids, ds v = 200 ∨ ds v = 204 ∨ ds v = 404) :
    (∀ a, a ∈ toRemoveOf pf value_ids ↔ a ∈ currentIdsOf pf ∧ a ∉ value_ids) ∧
    (∀ a, a ∈ toAddOf pf value_ids ↔ a ∈ value_ids ∧ a ∉ currentIdsOf pf) ∧
    (toRemoveOf pf value_ids).Pairwise (fun a b => strLeRel a b ∧ a ≠ b) ∧
    (toAddOf pf value_ids).Pairwise (fun a b => strLeRel a b ∧ a ≠ b) ∧
    (update_field_default_values ds w pid fid value_ids).1.isOk = true ∧
    (update_field_default_values ds w pid fid value_ids).2
      = Event.getDefaults pid fid ::
          ((toRemoveOf pf value_ids).map (Event.deleteDefault pid fid)
            ++ (toAddOf pf value_ids).map (Event.postDefault pid fid)) ∧
    ((∀ a, a ∈ currentIdsOf pf ↔ a ∈ value_ids) →
      update_field_default_values ds w pid fid value_ids
        = (.ok w, [Event.getDefaults pid fid])) := by
  refine ⟨mem_toRemoveOf pf value_ids, mem_toAddOf pf value_ids,
    sortedStr_strict _ ((List.nodup_dedup _).filter _),
    sortedStr_strict _ ((List.nodup_dedup _).filter _),
    (update_trace ds w pid fid value_ids pf hpf hds).1,
    (update_trace ds w pid fid value_ids pf hpf hds).2, ?_⟩
  intro hsets
  have hrem : toRemoveOf pf value_ids = [] := by
    rw [List.eq_nil_iff_forall_not_mem]
    intro a ha
    rcases (mem_toRemoveOf pf value_ids a).mp ha with ⟨h1, h2⟩
    exact h2 ((hsets a).mp h1)
  have hadd : toAddOf pf value_ids = [] := by
    rw [List.eq_nil_iff_forall_not_mem]
    intro a ha
    rcases (mem_toAddOf pf value_ids a).mp ha with ⟨h1, h2⟩
    exact h2 ((hsets a).mpr h1)
  unfold update_field_default_values
  rw [hpf]
  simp [hrem, hadd]

/-- Witness for C1 at a concrete input: current defaults `[A, B]`,
desired `[B]` (the diff-minimality example of the specification). -/
theorem C1_witness :
    (∀ a, a ∈ toRemoveOf ⟨"F1", "Sprints".toList, [], ["A", "B"]⟩ ["B"]
        ↔ a ∈ currentIdsOf ⟨"F1", "Sprints".toList, [], ["A", "B"]⟩ ∧ a ∉ ["B"]) ∧
    (∀ a, a ∈ toAddOf ⟨"F1", "Sprints".toList, [], ["A", "B"]⟩ ["B"]
        ↔ a ∈ ["B"] ∧ a ∉ currentIdsOf ⟨"F1", "Sprints".toList, [], ["A", "B"]⟩) ∧
    (toRemoveOf ⟨"F1", "Sprints".toList, [], ["A", "B"]⟩ ["B"]).Pairwise
      (fun a b => strLeRel a b ∧ a ≠ b) ∧
    (toAddOf ⟨"F1", "Sprints".toList, [], ["A", "B"]⟩ ["B"]).Pairwise
      (fun a b => strLeRel a b ∧ a ≠ b) ∧
    (update_field_default_values allOk204
        ⟨[], [⟨"P1", "Project".toList, [⟨"F1", "Sprints".toList, [], ["A", "B"]⟩]⟩]⟩
        "P1" "F1" ["B"]).1.isOk = true ∧
    (update_field_default_values allOk204
        ⟨[], [⟨"P1", "Project".toList, [⟨"F1", "Sprints".toList, [], ["A", "B"]⟩]⟩]⟩
        "P1" "F1" ["B"]).2
      = Event.getDefaults "P1" "F1" ::
          ((toRemoveOf ⟨"F1", "Sprints".toList, [], ["A", "B"]⟩ ["B"]).map
              (Event.deleteDefault "P1" "F1")
            ++ (toAddOf ⟨"F1", "Sprints".toList, [], ["A", "B"]⟩ ["B"]).map
              (Event.postDefault "P1" "F1")) ∧
    ((∀ a, a ∈ currentIdsOf ⟨"F1", "Sprints".toList, [], ["A", "B"]⟩ ↔ a ∈ ["B"]) →
      update_field_default_values allOk204
          ⟨[], [⟨"P1", "Project".toList, [⟨"F1", "Sprints".toList, [], ["A", "B"]⟩]⟩]⟩
          "P1" "F1" ["B"]
        = (.ok ⟨[], [⟨"P1", "Project".toList, [⟨"F1", "Sprints".toList, [], ["A", "B"]⟩]⟩]⟩,
            [Event.getDefaults "P1" "F1"])) :=
  C1_update_field_default_values allOk204
    ⟨[], [⟨"P1", "Project".toList, [⟨"F1", "Sprints".toList, [], ["A", "B"]⟩]⟩]⟩
    "P1" "F1" ["B"] ⟨"F1", "Sprints".toList, [], ["A", "B"]⟩
    (by decide) (fun v _ => Or.inr (Or.inl rfl))

/-- The diff example of the specification evaluated concretely: current
defaults `[A, B]`, desired `[B]` — exactly one removal (`A`) and no
addition; and one repeated run after success issues no mutation. -/
theorem C1_concrete_diff :
    toRemoveOf ⟨"F1", "Sprints".toList, [], ["A", "B"]⟩ ["B"] = ["A"] ∧
    toAddOf ⟨"F1", "Sprints".toList, [], ["A", "B"]⟩ ["B"] = [] ∧
    update_field_default_values allOk204
        ⟨[], [⟨"P1", "Project".toList, [⟨"F1", "Sprints".toList, [], ["B"]⟩]⟩]⟩
        "P1" "F1" ["B"]
      = (.ok ⟨[], [⟨"P1", "Project".toList, [⟨"F1", "Sprints".toList, [], ["B"]⟩]⟩]⟩,
          [Event.getDefaults "P1" "F1"]) := by
  refine ⟨by decide, by decide, by decide⟩

/-! ## Claim C7 -/

/-- Claim C7: a DELETE that the server answers with 404 ("already gone")
is treated as success by `YouTrackAPI.delete` (no exception), and a
reconciliation whose removals are all answered 404 completes: it
performs every removal and then every addition, and reports success
rather than aborting. -/
theorem C7_delete_404_success (ds : String → ℕ) (w : World)
    (pid fid : String) (value_ids : List String) (pf : ProjectField)
    (hpf : lookupProjectField w pid fid = some pf)
    (h404 : ∀ v ∈ toRemoveOf pf value_ids, ds v = 404) :
    delete 404 = .ok 404 ∧
    (update_field_default_values ds w pid fid value_ids).1.isOk = true ∧
    (update_field_default_values ds w pid fid value_ids).2
      = Event.getDefaults pid fid ::
          ((toRemoveOf pf value_ids).map (Event.deleteDefault pid fid)
            ++ (toAddOf pf value_ids).map (Event.postDefault pid fid)) := by
  have h := update_trace ds w pid fid value_ids pf hpf
    (fun v hv => Or.inr (Or.inr (h404 v hv)))
  exact ⟨rfl, h.1, h.2⟩

/-- Witness for C7 at a concrete input: one stale default "OLD" whose
DELETE is answered 404; the run still posts the desired value. -/
theorem C7_witness :
    delete 404 = .ok 404 ∧
    (update_field_default_values (fun _ => 404)
        ⟨[], [⟨"P1", "Project".toList, [⟨"F1", "Sprints".toList, [], ["OLD"]⟩]⟩]⟩
        "P1" "F1" ["V30"]).1.isOk = true ∧
    (update_field_default_values (fun _ => 404)
        ⟨[], [⟨"P1", "Project".toList, [⟨"F1", "Sprints".toList, [], ["OLD"]⟩]⟩]⟩
        "P1" "F1" ["V30"]).2
      = Event.getDefaults "P1" "F1" ::
          ((toRemoveOf ⟨"F1", "Sprints".toList, [], ["OLD"]⟩ ["V30"]).map
              (Event.deleteDefault "P1" "F1")
            ++ (toAddOf ⟨"F1", "Sprints".toList, [], ["OLD"]⟩ ["V30"]).map
              (Event.postDefault "P1" "F1")) :=
  C7_delete_404_success (fun _ => 404)
    ⟨[], [⟨"P1", "Project".toList, [⟨"F1", "Sprints".toList, [], ["OLD"]⟩]⟩]⟩
    "P1" "F1" ["V30"] ⟨"F1", "Sprints".toList, [], ["OLD"]⟩
    (by decide) (fun v _ => rfl)

end YT


namespace YT

/-! ## Claim C3: week advance in the forward-provisioning loop -/

/-- Names of the sprints created in a trace. -/
def createNames (evs : List Event) : List (List Char) :=
  evs.filterMap (fun e =>
    match e with
    | .createSprint _ n _ _ => some n
    | _ => none)

theorem find?_map_ite (bid : String) (g : Board → Board)
    (hg : ∀ b, (g b).id = b.id) :
    ∀ l : List Board,
      (l.map (fun b => if b.id == bid then g b else b)).find? (fun b => b.id == bid)
        = (l.find? (fun b => b.id == bid)).map g := by
  intro l
  induction l with
  | nil => rfl
  | cons b t ih =>
      by_cases h : (b.id == bid) = true
      · simp only [List.map_cons, List.find?]
        rw [if_pos h]
        rw [show ((g b).id == bid) = true from by rw [hg]; exact h]
        rw [show (b.id == bid) = true from h]
        rfl
      · have h2 : (b.id == bid) = false := by simpa using h
        simp only [List.map_cons, List.find?]
        rw [if_neg h]
        rw [show (b.id == bid) = false from h2]
        exact ih

theorem boardById_create (w : World) (bid : String) (n : List Char)
    (s f : Int) :
    boardById (create_sprint w bid n s f) bid
      = (boardById w bid).map (fun b =>
          { b with sprints := b.sprints ++ [⟨String.mk n, n, s, f⟩] }) := by
  unfold boardById create_sprint
  exact find?_map_ite bid
    (fun b => { b with sprints := b.sprints ++ [⟨String.mk n, n, s, f⟩] })
    (fun b => rfl) w.boards

theorem find?_append_isSome {α : Type} (p : α → Bool) :
    ∀ (l1 l2 : List α),
      ((l1 ++ l2).find? p).isSome = (((l1.find? p).isSome) || ((l2.find? p).isSome)) := by
  intro l1 l2
  induction l1 with
  | nil => simp
  | cons a t ih =>
      by_cases h : p a = true
      · simp [List.find?, h]
      · have h2 : p a = false := by simpa using h
        simp [List.find?, h2, ih]

theorem sprint_exists_create (w : World) (bid : String) (n : List Char)
    (s f : Int) (x : List Char) (b : Board) (hb : boardById w bid = some b) :
    sprint_exists (create_sprint w bid n s f) bid x
      = (sprint_exists w bid x || (n == x)) := by
  unfold sprint_exists find_sprint_id
  rw [boardById_create, hb]
  simp only [Option.map_some', Option.isSome_map']
  rw [find?_append_isSome]
  have hsingle : ((List.find? (fun sp : Sprint => sp.name == x)
      [(⟨String.mk n, n, s, f⟩ : Sprint)]).isSome) = (n == x) := by
    cases hnx : (n == x : Bool) <;> simp [List.find?, hnx]
  rw [hsingle]

theorem futureGo_creates (ds : String → ℕ) (bid : String) (m : Int) :
    ∀ (rem o : ℕ) (w : World) (b : Board),
      boardById w bid = some b →
      (∀ j, j < rem → sprint_exists w bid (derivedName m (o + j)) = false) →
      (∀ j, j < rem →
        (iso_week_range_utc (isocalendarOfOrd (m + 7 * ((o + j : ℕ) : Int))).1
          (isocalendarOfOrd (m + 7 * ((o + j : ℕ) : Int))).2.1).isSome = true) →
      (∀ j k, j < k → k < rem → derivedName m (o + j) ≠ derivedName m (o + k)) →
      (futureGo ds bid m w o rem).1.isOk = true ∧
      createNames (futureGo ds bid m w o rem).2
        = (List.range rem).map (fun j => derivedName m (o + j)) := by
  intro rem
  induction rem with
  | zero => intro o w b _ _ _ _; exact ⟨rfl, rfl⟩
  | succ rem ih =>
      intro o w b hb hempty hv hd
      have hv0 := hv 0 (Nat.succ_pos rem)
      rw [Nat.add_zero] at hv0
      rcases Option.isSome_iff_exists.mp hv0 with ⟨⟨mo, fr, s, f⟩, hq⟩
      have hex : sprint_exists w bid (derivedName m o) = false := by
        have h0 := hempty 0 (Nat.succ_pos rem)
        rwa [Nat.add_zero] at h0
      have hb2 : boardById (create_sprint w bid (derivedName m o) s f) bid
          = some { b with sprints := b.sprints
              ++ [⟨String.mk (derivedName m o), derivedName m o, s, f⟩] } := by
        rw [boardById_create, hb, Option.map_some']
      have hstep := ih (o + 1) (create_sprint w bid (derivedName m o) s f) _ hb2
        (by
          intro j hj
          rw [sprint_exists_create w bid (derivedName m o) s f _ b hb]
          have h1 : sprint_exists w bid (derivedName m (o + 1 + j)) = false := by
            have h0 := hempty (j + 1) (by omega)
            have harg : o + (j + 1) = o + 1 + j := by omega
            rwa [harg] at h0
          have h2 : derivedName m o ≠ derivedName m (o + 1 + j) := by
            have h0 := hd 0 (j + 1) (Nat.succ_pos j) (by omega)
            rw [Nat.add_zero] at h0
            have harg : o + (j + 1) = o + 1 + j := by omega
            rwa [harg] at h0
          rw [h1]
          simp [h2])
        (by
          intro j hj
          have h0 := hv (j + 1) (by omega)
          have harg : o + (j + 1) = o + 1 + j := by omega
          rwa [harg] at h0)
        (by
          intro j k hjk hk
          have h0 := hd (j + 1) (k + 1) (by omega) (by omega)
          have ha1 : o + (j + 1) = o + 1 + j := by omega
          have ha2 : o + (k + 1) = o + 1 + k := by omega
          rwa [ha1, ha2] at h0)
      have hunfold : futureGo ds bid m w o (rem + 1)
          = ((futureGo ds bid m (create_sprint w bid (derivedName m o) s f)
                (o + 1) rem).1,
              Event.getSprints bid ::
                Event.createSprint bid (derivedName m o) s f ::
                  (futureGo ds bid m (create_sprint w bid (derivedName m o) s f)
                    (o + 1) rem).2) := by
        simp only [futureGo]
        rw [hq]
        simp only [hex, Bool.false_eq_true, if_false]
      constructor
      · rw [hunfold]
        exact hstep.1
      · rw [hunfold]
        simp only [createNames, List.filterMap_cons] at hstep ⊢
        rw [hstep.2]
        rw [List.range_succ_eq_map]
        simp only [List.map_cons, List.map_map]
        rw [Nat.add_zero]
        refine congrArg (List.cons (derivedName m o)) ?_
        refine List.map_congr_left ?_
        intro j _
        simp only [Function.comp]
        exact congrArg (derivedName m) (by omega)

end YT

namespace YT

/-- Claim C3: advancing to a following week is computed by adding
`7 * offset` days to the base week's Monday and re-deriving the ISO year
and week of the resulting date — both in `nextWeek` and inside the
forward-provisioning loop of `ensure_future_sprints`, whose created
sprint names are exactly the re-derived names for offsets `1..count` —
and in particular the year-boundary and 53-week-year examples hold:
`nextWeek (2023, 51) 1 = (2023, 52)`, `nextWeek (2023, 51) 2 = (2024, 1)`,
`nextWeek (2026, 52) 1 = (2026, 53)`, `nextWeek (2026, 52) 2 = (2027, 1)`. -/
theorem C3_nextWeek_rederives :
    nextWeek 2023 51 1 = some (2023, 52) ∧
    nextWeek 2023 51 2 = some (2024, 1) ∧
    nextWeek 2026 52 1 = some (2026, 53) ∧
    nextWeek 2026 52 2 = some (2027, 1) ∧
    (∀ year week offset monday, fromisocalendarOrd year week 1 = some monday →
      nextWeek year week offset
        = some ((isocalendarOfOrd (monday + 7 * offset)).1,
            (isocalendarOfOrd (monday + 7 * offset)).2.1)) ∧
    (∀ (ds : String → ℕ) (w : World) (boardName : List Char)
        (baseYear baseWeek count : Int) (bid : String) (b : Board) (m : Int),
      find_board_id w boardName = some bid →
      boardById w bid = some b →
      fromisocalendarOrd baseYear baseWeek 1 = some m →
      0 < count →
      (∀ j, j < count.toNat → sprint_exists w bid (derivedName m (1 + j)) = false) →
      (∀ j, j < count.toNat →
        (iso_week_range_utc (isocalendarOfOrd (m + 7 * ((1 + j : ℕ) : Int))).1
          (isocalendarOfOrd (m + 7 * ((1 + j : ℕ) : Int))).2.1).isSome = true) →
      (∀ k, k < count.toNat → ∀ j, j < k →
        derivedName m (1 + j) ≠ derivedName m (1 + k)) →
      (ensure_future_sprints ds w boardName baseYear baseWeek count).1.isOk = true ∧
      createNames (ensure_future_sprints ds w boardName baseYear baseWeek count).2
        = (List.range count.toNat).map (fun j => derivedName m (1 + j))) := by
  refine ⟨by decide, by decide, by decide, by decide, ?_, ?_⟩
  · intro year week offset monday h
    unfold nextWeek
    rw [h]
    rfl
  · intro ds w boardName baseYear baseWeek count bid b m
      hboard hbb hm hpos hempty hv hd
    have h := futureGo_creates ds bid m count.toNat 1 w b hbb hempty hv
      (fun j k hjk hk => hd k hk j hjk)
    unfold ensure_future_sprints
    rw [if_neg (by omega)]
    rw [hboard, hm]
    exact ⟨h.1, by simp only [createNames, List.filterMap_cons]; exact h.2⟩

/-- Witness for C3 at a concrete input: provisioning two future sprints
from base week 2023.51 on the empty sample board creates, in order, the
re-derived names for offsets 1 and 2 (weeks 2023.52 and 2024.01). -/
theorem C3_witness :
    (ensure_future_sprints allOk204 sampleWorld ("Board".toList) 2023 51 2).1.isOk
      = true ∧
    createNames (ensure_future_sprints allOk204 sampleWorld ("Board".toList)
        2023 51 2).2
      = (List.range (2 : Int).toNat).map (fun j => derivedName 738872 (1 + j)) :=
  C3_nextWeek_rederives.2.2.2.2.2 allOk204 sampleWorld ("Board".toList)
    2023 51 2 "B1" ⟨"B1", "Board".toList, []⟩ 738872
    (by decide) (by decide) (by decide) (by decide) (by decide) (by decide) (by decide)

end YT

namespace YT

/-! ## Claim C8: week-spec parsing -/

/-- The literal `"YYYY.WW"` pattern of the specification: four digits, a
dot, two digits.  (This definition follows the specification text, to be
compared against `parse_year_week`, which follows the code.) -/
def matchesYYYYWW : List Char → Bool
  | [c1, c2, c3, c4, c5, c6, c7] =>
      c1.isDigit && c2.isDigit && c3.isDigit && c4.isDigit &&
        (c5 == '.') && c6.isDigit && c7.isDigit
  | _ => false

theorem digit_ne (c : Char) (h : c.isDigit = true) :
    c ≠ '.' ∧ c ≠ '+' ∧ c ≠ '-' ∧ c ≠ '_' := by
  refine ⟨?_, ?_, ?_, ?_⟩ <;> rintro rfl <;> exact absurd h (by decide)

theorem digit_not_space (c : Char) (h : c.isDigit = true) :
    isPySpace c = false := by
  cases hq : isPySpace c
  · rfl
  · exfalso
    simp only [isPySpace, Bool.or_eq_true, beq_iff_eq] at hq
    rcases hq with ((((rfl | rfl) | rfl) | rfl) | rfl) | rfl <;>
      exact absurd h (by decide)

theorem pyStrip_no_space (l : List Char) (h : ∀ c ∈ l, isPySpace c = false) :
    pyStrip l = l := by
  unfold pyStrip
  have h1 : l.dropWhile isPySpace = l := by
    cases l with
    | nil => rfl
    | cons a t =>
        rw [List.dropWhile_cons, if_neg]
        simp [h a (List.mem_cons_self a t)]
  rw [h1]
  have h2 : l.reverse.dropWhile isPySpace = l.reverse := by
    cases hr : l.reverse with
    | nil => rfl
    | cons a t =>
        rw [List.dropWhile_cons, if_neg]
        have ha : a ∈ l := by
          rw [← List.mem_reverse, hr]
          exact List.mem_cons_self a t
        simp [h a ha]
  rw [h2, List.reverse_reverse]

theorem pyDigitsGo_digits :
    ∀ (l : List Char) (acc : ℕ), (∀ c ∈ l, c.isDigit = true) →
      ∃ n, pyDigitsGo acc l = some n := by
  intro l
  induction l with
  | nil => intro acc _; exact ⟨acc, rfl⟩
  | cons c t ih =>
      intro acc h
      have hc := h c (List.mem_cons_self c t)
      unfold pyDigitsGo
      rw [if_neg (digit_ne c hc).2.2.2, if_pos hc]
      exact ih _ (fun x hx => h x (List.mem_cons_of_mem c hx))

theorem pyInt_digits (l : List Char) (hne : l ≠ []) (h : ∀ c ∈ l, c.isDigit = true) :
    (pyInt l).isSome = true := by
  cases l with
  | nil => exact absurd rfl hne
  | cons c t =>
      have hc := h c (List.mem_cons_self c t)
      have hstrip : pyStrip (c :: t) = c :: t :=
        pyStrip_no_space _ (fun x hx => digit_not_space x (h x hx))
      rcases pyDigitsGo_digits t (c.toNat - 48)
        (fun x hx => h x (List.mem_cons_of_mem c hx)) with ⟨n, hn⟩
      simp only [pyInt, hstrip]
      rw [if_neg (digit_ne c hc).2.1, if_neg (digit_ne c hc).2.2.1]
      simp only [pyDigits]
      rw [if_neg (digit_ne c hc).2.2.2, if_pos hc, hn]
      rfl

/-- Counterexample to claim C8 as stated: the input `"2025.5"` does not
match the `"YYYY.WW"` pattern, yet `parse_year_week` accepts it instead
of failing with a format error. -/
theorem C8_counterexample :
    parse_year_week ("2025.5".toList) = some (2025, 5) ∧
    matchesYYYYWW ("2025.5".toList) = false := by
  refine ⟨by decide, by decide⟩

/-- Claim C8 (amended): `parse_year_week` succeeds exactly on the
strings that split on a dot into two tokens both accepted by Python
`int(...)` with the week between 1 and 53 — a strictly larger language
than the `"YYYY.WW"` pattern — and every string matching the
`"YYYY.WW"` pattern does tokenize this way, so on pattern-matching
input the parse fails precisely when the week is outside 1..53. -/
theorem C8_parse_year_week_amended :
    (∀ s y wk, parse_year_week s = some (y, wk) ↔
      (∃ a b, splitOnDot s = [a, b] ∧ pyInt a = some y ∧ pyInt b = some wk ∧
        1 ≤ wk ∧ wk ≤ 53)) ∧
    (∀ s, matchesYYYYWW s = true →
      ∃ a b, splitOnDot s = [a, b] ∧ (pyInt a).isSome = true ∧
        (pyInt b).isSome = true) := by
  constructor
  · intro s y wk
    constructor
    · intro h
      unfold parse_year_week at h
      rcases hs : splitOnDot s with _ | ⟨a, _ | ⟨b, _ | ⟨c, rest3⟩⟩⟩ <;> rw [hs] at h
      · exact Option.noConfusion h
      · exact Option.noConfusion h
      · replace h : (match pyInt a, pyInt b with
            | some y, some w =>
                if (decide (1 ≤ w) && decide (w ≤ 53)) = true then some (y, w)
                else (none : Option (Int × Int))
            | _, _ => none) = some (y, wk) := h
        cases ha : pyInt a with
        | none => rw [ha] at h; exact Option.noConfusion h
        | some y0 =>
            cases hb : pyInt b with
            | none => rw [ha, hb] at h; exact Option.noConfusion h
            | some w0 =>
                rw [ha, hb] at h
                replace h : (if (decide (1 ≤ w0) && decide (w0 ≤ 53)) = true
                    then some (y0, w0) else (none : Option (Int × Int)))
                    = some (y, wk) := h
                by_cases hw : (1 ≤ w0 ∧ w0 ≤ 53)
                · rw [if_pos (by simp [hw.1, hw.2])] at h
                  have hy : y0 = y ∧ w0 = wk := by
                    have h2 := Option.some_inj.mp h
                    exact ⟨congrArg Prod.fst h2, congrArg Prod.snd h2⟩
                  refine ⟨a, b, rfl, ?_, ?_, ?_, ?_⟩
                  · rw [ha, hy.1]
                  · rw [hb, hy.2]
                  · rw [← hy.2]; exact hw.1
                  · rw [← hy.2]; exact hw.2
                · rw [if_neg (by simpa using hw)] at h
                  exact Option.noConfusion h
      · exact Option.noConfusion h
    · rintro ⟨a, b, hs, ha, hb, h1, h2⟩
      unfold parse_year_week
      rw [hs]
      have hfin : (if (decide (1 ≤ wk) && decide (wk ≤ 53)) = true
          then some (y, wk) else (none : Option (Int × Int))) = some (y, wk) := by
        rw [if_pos (by simp [h1, h2])]
      calc (match pyInt a, pyInt b with
              | some y, some w =>
                  if (decide (1 ≤ w) && decide (w ≤ 53)) = true then some (y, w)
                  else (none : Option (Int × Int))
              | _, _ => none)
            = (match some y, some wk with
              | some y, some w =>
                  if (decide (1 ≤ w) && decide (w ≤ 53)) = true then some (y, w)
                  else (none : Option (Int × Int))
              | _, _ => none) := by rw [ha, hb]
        _ = some (y, wk) := hfin
  · intro s hm
    rcases s with _ | ⟨c1, _ | ⟨c2, _ | ⟨c3, _ | ⟨c4, _ | ⟨c5, _ | ⟨c6, _ | ⟨c7, _ | ⟨c8, t⟩⟩⟩⟩⟩⟩⟩⟩ <;>
      simp only [matchesYYYYWW, Bool.false_eq_true] at hm
    simp only [Bool.and_eq_true, beq_iff_eq] at hm
    obtain ⟨⟨⟨⟨⟨⟨hd1, hd2⟩, hd3⟩, hd4⟩, hc5⟩, hd6⟩, hd7⟩ := hm
    subst hc5
    have hsplit : splitOnDot [c1, c2, c3, c4, '.', c6, c7]
        = [[c1, c2, c3, c4], [c6, c7]] := by
      simp [splitOnDot, (digit_ne c1 hd1).1, (digit_ne c2 hd2).1,
        (digit_ne c3 hd3).1, (digit_ne c4 hd4).1, (digit_ne c6 hd6).1,
        (digit_ne c7 hd7).1]
    refine ⟨[c1, c2, c3, c4], [c6, c7], hsplit, ?_, ?_⟩
    · refine pyInt_digits _ (by simp) ?_
      intro x hx
      simp only [List.mem_cons, List.not_mem_nil, or_false] at hx
      rcases hx with rfl | rfl | rfl | rfl
      · exact hd1
      · exact hd2
      · exact hd3
      · exact hd4
    · refine pyInt_digits _ (by simp) ?_
      intro x hx
      simp only [List.mem_cons, List.not_mem_nil, or_false] at hx
      rcases hx with rfl | rfl
      · exact hd6
      · exact hd7

/-- Witness for C8 (amended) at a concrete input: `"2025.30"` parses to
`(2025, 30)` and tokenizes as the pattern promises. -/
theorem C8_witness :
    parse_year_week ("2025.30".toList) = some (2025, 30) ∧
    (∃ a b, splitOnDot ("2025.30".toList) = [a, b] ∧ (pyInt a).isSome = true ∧
      (pyInt b).isSome = true) :=
  ⟨(C8_parse_year_week_amended.1 ("2025.30".toList) 2025 30).mpr
      ⟨"2025".toList, "30".toList, by decide, by decide, by decide, by decide, by decide⟩,
    C8_parse_year_week_amended.2 ("2025.30".toList) (by decide)⟩

end YT

namespace YT

/-! ## Claim C4: analysis of the binary64 rounding model -/

/-- Value of an integer fraction. -/
def fracVal (p : Int × Int) : ℚ := (p.1 : ℚ) / (p.2 : ℚ)

theorem flog2Go_zero : ∀ k, flog2Go 0 k = 0 := by
  intro k
  induction k with
  | zero => rfl
  | succ k ih =>
      unfold flog2Go
      rw [if_neg (Nat.not_le.mpr (Nat.two_pow_pos (k + 1)))]
      exact ih

theorem flog2Go_spec (n : ℕ) (hn : 1 ≤ n) :
    ∀ k, n < 2 ^ (k + 1) →
      2 ^ flog2Go n k ≤ n ∧ n < 2 ^ (flog2Go n k + 1) := by
  intro k
  induction k with
  | zero => intro h; exact ⟨by simpa [flog2Go] using hn, by simpa [flog2Go] using h⟩
  | succ k ih =>
      intro h
      unfold flog2Go
      by_cases hc : 2 ^ (k + 1) ≤ n
      · rw [if_pos hc]; exact ⟨hc, h⟩
      · rw [if_neg hc]; exact ih (by omega)

theorem floorLog2_spec (n : ℕ) (hn : 1 ≤ n) (hb : n < 2 ^ 64) :
    2 ^ floorLog2 n ≤ n ∧ n < 2 ^ (floorLog2 n + 1) :=
  flog2Go_spec n hn 63 hb

/-- Two-sided integer form of the half-ulp bound of round-half-even. -/
theorem rheDiv_err (a b : Int) (hb : 0 < b) :
    -b ≤ 2 * (rheDiv a b * b - a) ∧ 2 * (rheDiv a b * b - a) ≤ b := by
  have hdiv : b * (a / b) + a % b = a := Int.ediv_add_emod a b
  have hr0 : 0 ≤ a % b := Int.emod_nonneg a (by omega)
  have hrb : a % b < b := Int.emod_lt_of_pos a hb
  unfold rheDiv
  split_ifs with h1 h2 h3 <;> constructor <;> nlinarith [hdiv, hr0, hrb]

theorem rheDiv_exact (b c : Int) (hb : 0 < b) : rheDiv (c * b) b = c := by
  unfold rheDiv
  have h1 : c * b / b = c := Int.mul_ediv_cancel c (by omega)
  have h2 : c * b % b = 0 := Int.mul_emod_left c b
  rw [h1, h2, if_pos (by omega)]

theorem rndPosFrac_den_pos (a b : Int) : 0 < (rndPosFrac a b).2 := by
  unfold rndPosFrac
  split_ifs <;> positivity

theorem rndFrac_den_pos (a b : Int) : 0 < (rndFrac a b).2 := by
  unfold rndFrac
  split_ifs <;> exact rndPosFrac_den_pos _ _

end YT

namespace YT

set_option maxHeartbeats 800000 in
/-- Two-sided relative-error bound for rounding a positive fraction to
53 significant bits: the result differs from `a / b` by at most
`(a / b) / 2 ^ 53` (half an ulp). -/
theorem rndPosFrac_err2 (a b : Int) (hb : 0 < b) (h1 : b ≤ a)
    (h2 : a ≤ b * 2 ^ 62) :
    (a : ℚ) / b - ((a : ℚ) / b) / 2 ^ 53 ≤ fracVal (rndPosFrac a b) ∧
    fracVal (rndPosFrac a b) ≤ (a : ℚ) / b + ((a : ℚ) / b) / 2 ^ 53 := by
  have hq1 : 1 ≤ a / b := by
    rw [Int.le_ediv_iff_mul_le hb]
    omega
  have hqU : a / b ≤ 2 ^ 62 := by
    have hm := Int.ediv_le_ediv hb h2
    rwa [Int.mul_ediv_cancel_left _ (by omega : b ≠ 0)] at hm
  have hn1 : 1 ≤ (a / b).toNat := by omega
  have hn64 : (a / b).toNat < 2 ^ 64 := by omega
  obtain ⟨hk1, hk2⟩ := floorLog2_spec (a / b).toNat hn1 hn64
  have hni : (((a / b).toNat : ℤ)) = a / b := Int.toNat_of_nonneg (by omega)
  have hbQ : (0 : ℚ) < (b : ℚ) := by exact_mod_cast hb
  have hkZ : ((2 : ℤ) ^ floorLog2 (a / b).toNat) ≤ a / b := by
    rw [← hni]
    exact_mod_cast hk1
  have hkq : ((2 : ℚ) ^ floorLog2 (a / b).toNat) ≤ (a : ℚ) / b := by
    rw [le_div_iff₀ hbQ]
    have hstep : (2 : ℤ) ^ floorLog2 (a / b).toNat * b ≤ a / b * b :=
      mul_le_mul_of_nonneg_right hkZ (by omega)
    have hfin : a / b * b ≤ a := Int.ediv_mul_le a (by omega)
    have hall : (2 : ℤ) ^ floorLog2 (a / b).toNat * b ≤ a := le_trans hstep hfin
    exact_mod_cast hall
  have hε : ((a : ℚ) / b) / 2 ^ 53 * 2 ^ 53 = (a : ℚ) / b := by
    field_simp
    ring
  have hKpos : (0 : ℚ) < (2 : ℚ) ^ floorLog2 (a / b).toNat := by positivity
  have hq2 : (2 : ℚ) ^ floorLog2 (a / b).toNat
      ≤ ((a : ℚ) / b) / 2 ^ 53 * 2 ^ 53 := by rw [hε]; exact hkq
  unfold rndPosFrac
  by_cases hk52 : floorLog2 (a / b).toNat ≤ 52
  · rw [if_pos hk52]
    obtain ⟨e1, e2⟩ :=
      rheDiv_err (a * 2 ^ (52 - floorLog2 (a / b).toNat)) b hb
    have hPpos : (0 : ℚ) < (2 : ℚ) ^ (52 - floorLog2 (a / b).toNat) := by positivity
    have hDpos : (0 : ℚ) < (b : ℚ) * 2 ^ (52 - floorLog2 (a / b).toNat) := by positivity
    have hkey : fracVal
        (rheDiv (a * 2 ^ (52 - floorLog2 (a / b).toNat)) b,
          2 ^ (52 - floorLog2 (a / b).toNat)) - (a : ℚ) / b
        = (((rheDiv (a * 2 ^ (52 - floorLog2 (a / b).toNat)) b : ℚ)) * b
            - (a : ℚ) * 2 ^ (52 - floorLog2 (a / b).toNat))
          / ((b : ℚ) * 2 ^ (52 - floorLog2 (a / b).toNat)) := by
      unfold fracVal
      push_cast
      field_simp
      ring
    have e1Q : -(b : ℚ) ≤ 2 * (((rheDiv (a * 2 ^ (52 - floorLog2 (a / b).toNat)) b : ℚ)) * b
        - (a : ℚ) * 2 ^ (52 - floorLog2 (a / b).toNat)) := by
      have hcast := e1
      push_cast at hcast ⊢
      exact_mod_cast hcast
    have e2Q : 2 * (((rheDiv (a * 2 ^ (52 - floorLog2 (a / b).toNat)) b : ℚ)) * b
        - (a : ℚ) * 2 ^ (52 - floorLog2 (a / b).toNat)) ≤ (b : ℚ) := by
      have hcast := e2
      push_cast at hcast ⊢
      exact_mod_cast hcast
    have hpow : ((2 : ℚ) ^ floorLog2 (a / b).toNat)
        * (2 * 2 ^ (52 - floorLog2 (a / b).toNat)) = 2 ^ 53 := by
      rw [show (2 : ℚ) * 2 ^ (52 - floorLog2 (a / b).toNat)
        = 2 ^ (52 - floorLog2 (a / b).toNat + 1) from by ring, ← pow_add]
      congr 1
      omega
    have hf3 : 1 ≤ ((a : ℚ) / b) / 2 ^ 53
        * (2 * 2 ^ (52 - floorLog2 (a / b).toNat)) := by
      have hq3 : (2 : ℚ) ^ floorLog2 (a / b).toNat
          ≤ ((a : ℚ) / b) / 2 ^ 53 * (((2 : ℚ) ^ floorLog2 (a / b).toNat)
            * (2 * 2 ^ (52 - floorLog2 (a / b).toNat))) := by rw [hpow]; exact hq2
      nlinarith [hq3, hKpos]
    constructor
    · have hND : -(((a : ℚ) / b) / 2 ^ 53)
          ≤ (((rheDiv (a * 2 ^ (52 - floorLog2 (a / b).toNat)) b : ℚ)) * b
            - (a : ℚ) * 2 ^ (52 - floorLog2 (a / b).toNat))
          / ((b : ℚ) * 2 ^ (52 - floorLog2 (a / b).toNat)) := by
        rw [le_div_iff₀ hDpos]
        have hmul := mul_le_mul_of_nonneg_left hf3 (le_of_lt hbQ)
        linarith [e1Q, hmul]
      linarith [hND, hkey]
    · have hND2 : (((rheDiv (a * 2 ^ (52 - floorLog2 (a / b).toNat)) b : ℚ)) * b
            - (a : ℚ) * 2 ^ (52 - floorLog2 (a / b).toNat))
          / ((b : ℚ) * 2 ^ (52 - floorLog2 (a / b).toNat))
          ≤ ((a : ℚ) / b) / 2 ^ 53 := by
        rw [div_le_iff₀ hDpos]
        have hmul := mul_le_mul_of_nonneg_left hf3 (le_of_lt hbQ)
        linarith [e2Q, hmul]
      linarith [hND2, hkey]
  · rw [if_neg hk52]
    obtain ⟨e1, e2⟩ :=
      rheDiv_err a (b * 2 ^ (floorLog2 (a / b).toNat - 52)) (by positivity)
    have hPpos : (0 : ℚ) < (2 : ℚ) ^ (floorLog2 (a / b).toNat - 52) := by positivity
    have hkey : fracVal
        (rheDiv a (b * 2 ^ (floorLog2 (a / b).toNat - 52))
            * 2 ^ (floorLog2 (a / b).toNat - 52), 1) - (a : ℚ) / b
        = (((rheDiv a (b * 2 ^ (floorLog2 (a / b).toNat - 52)) : ℚ))
            * ((b : ℚ) * 2 ^ (floorLog2 (a / b).toNat - 52)) - (a : ℚ))
          / (b : ℚ) := by
      unfold fracVal
      push_cast
      field_simp
      ring
    have e1Q : -((b : ℚ) * 2 ^ (floorLog2 (a / b).toNat - 52))
        ≤ 2 * (((rheDiv a (b * 2 ^ (floorLog2 (a / b).toNat - 52)) : ℚ))
            * ((b : ℚ) * 2 ^ (floorLog2 (a / b).toNat - 52)) - (a : ℚ)) := by
      have hcast := e1
      push_cast at hcast ⊢
      exact_mod_cast hcast
    have e2Q : 2 * (((rheDiv a (b * 2 ^ (floorLog2 (a / b).toNat - 52)) : ℚ))
            * ((b : ℚ) * 2 ^ (floorLog2 (a / b).toNat - 52)) - (a : ℚ))
        ≤ (b : ℚ) * 2 ^ (floorLog2 (a / b).toNat - 52) := by
      have hcast := e2
      push_cast at hcast ⊢
      exact_mod_cast hcast
    have hpow2 : ((2 : ℚ) ^ (floorLog2 (a / b).toNat - 52)) * 2 ^ 53
        = 2 * (2 : ℚ) ^ floorLog2 (a / b).toNat := by
      rw [← pow_add, show (2 : ℚ) * (2 : ℚ) ^ floorLog2 (a / b).toNat
        = (2 : ℚ) ^ (floorLog2 (a / b).toNat + 1) from by ring]
      congr 1
      omega
    have hf3 : (2 : ℚ) ^ (floorLog2 (a / b).toNat - 52)
        ≤ 2 * (((a : ℚ) / b) / 2 ^ 53) := by
      linarith [hq2, hpow2]
    constructor
    · have hND : -(((a : ℚ) / b) / 2 ^ 53)
          ≤ (((rheDiv a (b * 2 ^ (floorLog2 (a / b).toNat - 52)) : ℚ))
            * ((b : ℚ) * 2 ^ (floorLog2 (a / b).toNat - 52)) - (a : ℚ))
          / (b : ℚ) := by
        rw [le_div_iff₀ hbQ]
        have hmul := mul_le_mul_of_nonneg_left hf3 (le_of_lt hbQ)
        linarith [e1Q, hmul]
      linarith [hND, hkey]
    · have hND2 : (((rheDiv a (b * 2 ^ (floorLog2 (a / b).toNat - 52)) : ℚ))
            * ((b : ℚ) * 2 ^ (floorLog2 (a / b).toNat - 52)) - (a : ℚ))
          / (b : ℚ) ≤ ((a : ℚ) / b) / 2 ^ 53 := by
        rw [div_le_iff₀ hbQ]
        have hmul := mul_le_mul_of_nonneg_left hf3 (le_of_lt hbQ)
        linarith [e2Q, hmul]
      linarith [hND2, hkey]

end YT

namespace YT

theorem rndFrac_neg (a b : Int) (hb : 0 < b) :
    rndFrac (-a) b = (-(rndFrac a b).1, (rndFrac a b).2) := by
  unfold rndFrac
  rcases lt_trichotomy a 0 with h | rfl | h
  · rw [if_neg (by omega), if_pos h]
    simp
  · have hz : rndPosFrac 0 b = (0, 2 ^ 52) := by
      unfold rndPosFrac
      rw [Int.zero_ediv]
      simp only [Int.toNat_zero, floorLog2, flog2Go_zero]
      rw [if_pos (by omega)]
      rw [show (0 : ℤ) * 2 ^ (52 - 0) = 0 * b from by ring]
      rw [rheDiv_exact b 0 hb]
    rw [neg_zero, if_neg (by omega), hz]
    norm_num
  · rw [if_pos (by omega), if_neg (by omega)]
    simp

theorem pyTruncFrac_neg (a b : Int) (hb : 0 < b) :
    pyTruncFrac (-a) b = -pyTruncFrac a b := by
  unfold pyTruncFrac
  rcases lt_trichotomy a 0 with h | rfl | h
  · rw [if_neg (by omega), if_pos h]
    simp
  · simp
  · rw [if_pos (by omega), if_neg (by omega)]
    simp

theorem pyTimestampMs_neg (us : Int) : pyTimestampMs (-us) = -pyTimestampMs us := by
  simp only [pyTimestampMs]
  rw [rndFrac_neg us 1000000 (by norm_num)]
  rw [show -(rndFrac us 1000000).1 * 1000 = -((rndFrac us 1000000).1 * 1000) from by
    ring]
  rw [rndFrac_neg _ _ (rndFrac_den_pos us 1000000)]
  rw [pyTruncFrac_neg _ _
    (rndFrac_den_pos ((rndFrac us 1000000).1 * 1000) (rndFrac us 1000000).2)]

theorem rndPosFrac_exact (b c : Int) (hb : 0 < b) (hc0 : 0 ≤ c)
    (hc : c.natAbs < 2 ^ 53) :
    rndPosFrac (c * b) b
      = (c * 2 ^ (52 - floorLog2 c.toNat), 2 ^ (52 - floorLog2 c.toNat)) := by
  have hq : c * b / b = c := Int.mul_ediv_cancel c (by omega)
  unfold rndPosFrac
  rw [hq]
  have hk52 : floorLog2 c.toNat ≤ 52 := by
    by_cases h0 : c.toNat = 0
    · rw [h0]
      simp [floorLog2, flog2Go_zero]
    · obtain ⟨hk1, _⟩ := floorLog2_spec c.toNat (by omega) (by omega)
      by_contra hgt
      have hmono : (2 : ℕ) ^ 53 ≤ 2 ^ floorLog2 c.toNat :=
        Nat.pow_le_pow_right (by norm_num) (by omega)
      omega
  rw [if_pos hk52]
  rw [show c * b * 2 ^ (52 - floorLog2 c.toNat)
    = (c * 2 ^ (52 - floorLog2 c.toNat)) * b from by ring]
  rw [rheDiv_exact b _ hb]

theorem rndFrac_exact (b c : Int) (hb : 0 < b) (hc : c.natAbs < 2 ^ 53) :
    rndFrac (c * b) b
      = (c * 2 ^ (52 - floorLog2 c.natAbs), 2 ^ (52 - floorLog2 c.natAbs)) := by
  rcases le_or_lt 0 c with h0 | h0
  · have hnn : rndFrac (c * b) b = rndPosFrac (c * b) b := by
      unfold rndFrac
      rw [if_neg (not_lt.mpr (mul_nonneg h0 hb.le))]
    rw [hnn, rndPosFrac_exact b c hb h0 hc]
    have htn : c.toNat = c.natAbs := by omega
    rw [htn]
  · have hneg : c * b < 0 := mul_neg_of_neg_of_pos h0 hb
    unfold rndFrac
    rw [if_pos hneg]
    rw [show -(c * b) = (-c) * b from by ring]
    rw [rndPosFrac_exact b (-c) hb (by omega) (by omega)]
    have htn : (-c).toNat = c.natAbs := by omega
    rw [htn]
    simp [neg_mul]

theorem pyTruncFrac_mul_pow (c : Int) (s : ℕ) :
    pyTruncFrac (c * 2 ^ s) (2 ^ s) = c := by
  have hpow : (0 : ℤ) < 2 ^ s := by positivity
  unfold pyTruncFrac
  rcases lt_trichotomy c 0 with h | rfl | h
  · rw [if_pos (mul_neg_of_neg_of_pos h hpow)]
    rw [show -(c * 2 ^ s) = (-c) * 2 ^ s from by ring,
      Int.mul_ediv_cancel _ (by omega)]
    omega
  · simp
  · rw [if_neg (not_lt.mpr (by positivity))]
    exact Int.mul_ediv_cancel _ (by omega)

/-- For microsecond counts that are whole seconds (`S * 10 ^ 6` with
`|S|` at most `2 ^ 42`), the float pipeline is exact: the result is
`S * 1000` milliseconds. -/
theorem pyTimestampMs_exact (S : Int) (h : S.natAbs ≤ 2 ^ 42) :
    pyTimestampMs (S * 1000000) = S * 1000 := by
  have hd1 : rndFrac (S * 1000000) 1000000
      = (S * 2 ^ (52 - floorLog2 S.natAbs), 2 ^ (52 - floorLog2 S.natAbs)) :=
    rndFrac_exact 1000000 S (by norm_num) (by omega)
  have habs2 : (S * 1000).natAbs = S.natAbs * 1000 := by
    rw [Int.natAbs_mul]
    rfl
  have hd2 : rndFrac ((rndFrac (S * 1000000) 1000000).1 * 1000)
      (rndFrac (S * 1000000) 1000000).2
      = ((S * 1000) * 2 ^ (52 - floorLog2 (S * 1000).natAbs),
          2 ^ (52 - floorLog2 (S * 1000).natAbs)) := by
    rw [hd1]
    show rndFrac ((S * 2 ^ (52 - floorLog2 S.natAbs)) * 1000)
      (2 ^ (52 - floorLog2 S.natAbs)) = _
    rw [show (S * 2 ^ (52 - floorLog2 S.natAbs)) * 1000
      = (S * 1000) * 2 ^ (52 - floorLog2 S.natAbs) from by ring]
    exact rndFrac_exact _ _ (by positivity) (by omega)
  show pyTruncFrac
      (rndFrac ((rndFrac (S * 1000000) 1000000).1 * 1000)
        (rndFrac (S * 1000000) 1000000).2).1
      (rndFrac ((rndFrac (S * 1000000) 1000000).1 * 1000)
        (rndFrac (S * 1000000) 1000000).2).2 = S * 1000
  rw [hd2]
  exact pyTruncFrac_mul_pow (S * 1000) _

theorem ediv_bounds (a b E : Int) (hb : 0 < b)
    (hlow : (4 * E - 1) * b ≤ 4 * a) (hhigh : 4 * a ≤ (4 * E + 1) * b) :
    E - 1 ≤ a / b ∧ a / b ≤ E + 1 := by
  constructor
  · rw [Int.le_ediv_iff_mul_le hb]
    nlinarith [hb, hlow]
  · have hup : a / b < E + 2 := by
      rw [Int.ediv_lt_iff_lt_mul hb]
      nlinarith [hb, hhigh]
    omega

theorem pyTruncFrac_near (a b E : Int) (hb : 0 < b)
    (hlow : (4 * E - 1) * b ≤ 4 * a) (hhigh : 4 * a ≤ (4 * E + 1) * b) :
    E - 1 ≤ pyTruncFrac a b ∧ pyTruncFrac a b ≤ E + 1 := by
  unfold pyTruncFrac
  by_cases ha : a < 0
  · rw [if_pos ha]
    have h := ediv_bounds (-a) b (-E) hb (by nlinarith [hhigh]) (by nlinarith [hlow])
    omega
  · rw [if_neg ha]
    exact ediv_bounds a b E hb hlow hhigh

end YT


namespace YT

set_option maxHeartbeats 1600000 in
theorem pyTimestampMs_near_pos (e : Int) (h1 : 1000 ≤ e) (h2 : e ≤ 2 ^ 48) :
    e - 1 ≤ pyTimestampMs (e * 1000) ∧ pyTimestampMs (e * 1000) ≤ e + 1 := by
  have heQ1 : (1000 : ℚ) ≤ (e : ℚ) := by exact_mod_cast h1
  have heQ2 : (e : ℚ) ≤ 2 ^ 48 := by exact_mod_cast h2
  have hfrac1 : rndFrac (e * 1000) 1000000 = rndPosFrac (e * 1000) 1000000 := by
    unfold rndFrac
    rw [if_neg (by omega)]
  obtain ⟨l1, u1⟩ := rndPosFrac_err2 (e * 1000) 1000000 (by norm_num) (by omega)
    (by omega)
  push_cast at l1 u1
  have hv1lb : (1 : ℚ) / 2 ≤ fracVal (rndPosFrac (e * 1000) 1000000) := by
    linarith [l1, heQ1]
  have hv1ub : fracVal (rndPosFrac (e * 1000) 1000000) ≤ 2 ^ 49 := by
    linarith [u1, heQ2]
  have hden1 : (0 : ℤ) < (rndPosFrac (e * 1000) 1000000).2 := rndPosFrac_den_pos _ _
  have hden1Q : (0 : ℚ) < ((rndPosFrac (e * 1000) 1000000).2 : ℚ) := by
    exact_mod_cast hden1
  have hnum1 : ((rndPosFrac (e * 1000) 1000000).1 : ℚ)
      = fracVal (rndPosFrac (e * 1000) 1000000)
        * ((rndPosFrac (e * 1000) 1000000).2 : ℚ) := by
    unfold fracVal
    field_simp
  have ha2Q : (((rndPosFrac (e * 1000) 1000000).1 * 1000 : ℤ) : ℚ)
      = 1000 * fracVal (rndPosFrac (e * 1000) 1000000)
        * ((rndPosFrac (e * 1000) 1000000).2 : ℚ) := by
    push_cast
    rw [hnum1]
    ring
  have ha2pos : (0 : ℤ) < (rndPosFrac (e * 1000) 1000000).1 * 1000 := by
    have h5 : (0 : ℚ) < 1000 * fracVal (rndPosFrac (e * 1000) 1000000) := by
      linarith
    have hQ : (0 : ℚ) < (((rndPosFrac (e * 1000) 1000000).1 * 1000 : ℤ) : ℚ) := by
      rw [ha2Q]
      exact mul_pos h5 hden1Q
    exact_mod_cast hQ
  have hfrac2 : rndFrac ((rndPosFrac (e * 1000) 1000000).1 * 1000)
      (rndPosFrac (e * 1000) 1000000).2
      = rndPosFrac ((rndPosFrac (e * 1000) 1000000).1 * 1000)
        (rndPosFrac (e * 1000) 1000000).2 := by
    unfold rndFrac
    rw [if_neg (by omega)]
  have hb2le : (rndPosFrac (e * 1000) 1000000).2
      ≤ (rndPosFrac (e * 1000) 1000000).1 * 1000 := by
    have h5 : (0 : ℚ) ≤ 1000 * fracVal (rndPosFrac (e * 1000) 1000000) - 1 := by
      linarith
    have hQ : ((rndPosFrac (e * 1000) 1000000).2 : ℚ)
        ≤ (((rndPosFrac (e * 1000) 1000000).1 * 1000 : ℤ) : ℚ) := by
      rw [ha2Q]
      linarith [mul_nonneg h5 hden1Q.le]
    exact_mod_cast hQ
  have hb2ub : (rndPosFrac (e * 1000) 1000000).1 * 1000
      ≤ (rndPosFrac (e * 1000) 1000000).2 * 2 ^ 62 := by
    have h5 : (0 : ℚ) ≤ 2 ^ 62 - 1000 * fracVal (rndPosFrac (e * 1000) 1000000) := by
      linarith
    have hQ : (((rndPosFrac (e * 1000) 1000000).1 * 1000 : ℤ) : ℚ)
        ≤ (((rndPosFrac (e * 1000) 1000000).2 * 2 ^ 62 : ℤ) : ℚ) := by
      rw [ha2Q]
      push_cast
      linarith [mul_nonneg h5 hden1Q.le]
    exact_mod_cast hQ
  obtain ⟨l2, u2⟩ := rndPosFrac_err2 ((rndPosFrac (e * 1000) 1000000).1 * 1000)
    (rndPosFrac (e * 1000) 1000000).2 hden1 hb2le hb2ub
  have hm0 : (((rndPosFrac (e * 1000) 1000000).1 * 1000 : ℤ) : ℚ)
      / ((rndPosFrac (e * 1000) 1000000).2 : ℚ)
      = 1000 * fracVal (rndPosFrac (e * 1000) 1000000) := by
    rw [ha2Q]
    exact mul_div_cancel_right₀ _ hden1Q.ne'
  rw [hm0] at l2 u2
  have hv2low : (e : ℚ) - 1 / 4
      ≤ fracVal (rndPosFrac ((rndPosFrac (e * 1000) 1000000).1 * 1000)
          (rndPosFrac (e * 1000) 1000000).2) := by
    linarith [l1, l2, heQ1, heQ2]
  have hv2high : fracVal (rndPosFrac ((rndPosFrac (e * 1000) 1000000).1 * 1000)
      (rndPosFrac (e * 1000) 1000000).2) ≤ (e : ℚ) + 1 / 4 := by
    linarith [u1, u2, heQ2]
  have hden2 : (0 : ℤ) < (rndPosFrac ((rndPosFrac (e * 1000) 1000000).1 * 1000)
      (rndPosFrac (e * 1000) 1000000).2).2 := rndPosFrac_den_pos _ _
  have hden2Q : (0 : ℚ) < ((rndPosFrac ((rndPosFrac (e * 1000) 1000000).1 * 1000)
      (rndPosFrac (e * 1000) 1000000).2).2 : ℚ) := by exact_mod_cast hden2
  have hnum2 : ((rndPosFrac ((rndPosFrac (e * 1000) 1000000).1 * 1000)
      (rndPosFrac (e * 1000) 1000000).2).1 : ℚ)
      = fracVal (rndPosFrac ((rndPosFrac (e * 1000) 1000000).1 * 1000)
          (rndPosFrac (e * 1000) 1000000).2)
        * ((rndPosFrac ((rndPosFrac (e * 1000) 1000000).1 * 1000)
          (rndPosFrac (e * 1000) 1000000).2).2 : ℚ) := by
    unfold fracVal
    field_simp
  have hlowZ : (4 * e - 1) * (rndPosFrac ((rndPosFrac (e * 1000) 1000000).1 * 1000)
      (rndPosFrac (e * 1000) 1000000).2).2
      ≤ 4 * (rndPosFrac ((rndPosFrac (e * 1000) 1000000).1 * 1000)
          (rndPosFrac (e * 1000) 1000000).2).1 := by
    have hQ : ((4 * e - 1 : ℤ) : ℚ)
        * ((rndPosFrac ((rndPosFrac (e * 1000) 1000000).1 * 1000)
            (rndPosFrac (e * 1000) 1000000).2).2 : ℚ)
        ≤ ((4 : ℤ) : ℚ)
          * ((rndPosFrac ((rndPosFrac (e * 1000) 1000000).1 * 1000)
            (rndPosFrac (e * 1000) 1000000).2).1 : ℚ) := by
      rw [hnum2]
      push_cast
      linarith [mul_le_mul_of_nonneg_right hv2low hden2Q.le]
    exact_mod_cast hQ
  have hhighZ : 4 * (rndPosFrac ((rndPosFrac (e * 1000) 1000000).1 * 1000)
      (rndPosFrac (e * 1000) 1000000).2).1
      ≤ (4 * e + 1) * (rndPosFrac ((rndPosFrac (e * 1000) 1000000).1 * 1000)
          (rndPosFrac (e * 1000) 1000000).2).2 := by
    have hQ : ((4 : ℤ) : ℚ)
        * ((rndPosFrac ((rndPosFrac (e * 1000) 1000000).1 * 1000)
            (rndPosFrac (e * 1000) 1000000).2).1 : ℚ)
        ≤ ((4 * e + 1 : ℤ) : ℚ)
          * ((rndPosFrac ((rndPosFrac (e * 1000) 1000000).1 * 1000)
            (rndPosFrac (e * 1000) 1000000).2).2 : ℚ) := by
      rw [hnum2]
      push_cast
      linarith [mul_le_mul_of_nonneg_right hv2high hden2Q.le]
    exact_mod_cast hQ
  have hcomp : pyTimestampMs (e * 1000)
      = pyTruncFrac (rndPosFrac ((rndPosFrac (e * 1000) 1000000).1 * 1000)
          (rndPosFrac (e * 1000) 1000000).2).1
        (rndPosFrac ((rndPosFrac (e * 1000) 1000000).1 * 1000)
          (rndPosFrac (e * 1000) 1000000).2).2 := by
    show pyTruncFrac
        (rndFrac ((rndFrac (e * 1000) 1000000).1 * 1000)
          (rndFrac (e * 1000) 1000000).2).1
        (rndFrac ((rndFrac (e * 1000) 1000000).1 * 1000)
          (rndFrac (e * 1000) 1000000).2).2 = _
    rw [hfrac1, hfrac2]
  rw [hcomp]
  exact pyTruncFrac_near _ _ e hden2 hlowZ hhighZ

theorem pyTimestampMs_near (e : Int) (hlo : 1000 ≤ e.natAbs)
    (hhi : e.natAbs ≤ 2 ^ 48) :
    (pyTimestampMs (e * 1000) - e).natAbs ≤ 1 := by
  rcases le_or_lt 0 e with h0 | h0
  · have h := pyTimestampMs_near_pos e (by omega) (by omega)
    omega
  · have h := pyTimestampMs_near_pos (-e) (by omega) (by omega)
    have hneg : pyTimestampMs (-e * 1000) = -pyTimestampMs (e * 1000) := by
      rw [show -e * 1000 = -(e * 1000) from by ring, pyTimestampMs_neg]
    rw [hneg] at h
    omega

end YT

namespace YT

theorem dby_step (y : Int) : daysBeforeYear y + 365 ≤ daysBeforeYear (y + 1) := by
  unfold daysBeforeYear
  omega

theorem dby_mono (y z : Int) (h : y ≤ z) :
    daysBeforeYear y + 365 * (z - y) ≤ daysBeforeYear z := by
  exact @Int.le_induction
    (fun n => daysBeforeYear y + 365 * (n - y) ≤ daysBeforeYear n) y
    (by omega)
    (fun n hmn ih => by
      have hstep := dby_step n
      omega)
    z h

theorem isoweek1monday_mod7 (y : Int) : isoweek1monday y % 7 = 1 := by
  simp only [isoweek1monday, ordJan1]
  split_ifs <;> omega

theorem isoweek1monday_bounds (y : Int) :
    daysBeforeYear y - 2 ≤ isoweek1monday y ∧
    isoweek1monday y ≤ daysBeforeYear y + 4 := by
  simp only [isoweek1monday, ordJan1]
  split_ifs <;> constructor <;> omega

/-- Ordinal range of the date addressed by a valid ISO (year, week, day)
triple with day at most 5: it lies inside the supported date range. -/
theorem isoOrd_bounds (year week day : Int) (hy : 1 ≤ year) (hy2 : year ≤ 9999)
    (hw : (1 ≤ week ∧ week ≤ 52) ∨ (week = 53 ∧ hasWeek53 year = true))
    (hd : 1 ≤ day) (hd2 : day ≤ 5) :
    1 ≤ isoweek1monday year + 7 * (week - 1) + (day - 1) ∧
    isoweek1monday year + 7 * (week - 1) + (day - 1) ≤ maxOrdinal := by
  obtain ⟨hb1, hb2⟩ := isoweek1monday_bounds year
  have hmax : maxOrdinal = 3652059 := rfl
  have hwb : 1 ≤ week ∧ week ≤ 53 := by
    rcases hw with ⟨hl, hr⟩ | ⟨h53, _⟩ <;> omega
  constructor
  · by_cases hyy : year = 1
    · rw [hyy]
      rw [show isoweek1monday 1 = 1 from by decide]
      omega
    · have hm := dby_mono 2 year (by omega)
      have hv : daysBeforeYear 2 = 365 := by decide
      omega
  · by_cases hyy : year = 9999
    · have hw52 : week ≤ 52 := by
        rcases hw with ⟨_, h⟩ | ⟨h53, hh⟩
        · exact h
        · rw [hyy] at hh
          rw [show hasWeek53 9999 = false from by decide] at hh
          exact Bool.noConfusion hh
      rw [hyy]
      rw [show isoweek1monday 9999 = 3651698 from by decide]
      omega
    · have hm := dby_mono year 9999 (by omega)
      have hv : daysBeforeYear 9999 = 3651694 := by decide
      omega

/-- `date.fromisocalendar` succeeds on every valid (year, week) pair for
days 1..5, returning Monday's ordinal of that ISO week plus `day - 1`. -/
theorem fromisocalendarOrd_valid (year week day : Int) (hy : 1 ≤ year)
    (hy2 : year ≤ 9999)
    (hw : (1 ≤ week ∧ week ≤ 52) ∨ (week = 53 ∧ hasWeek53 year = true))
    (hd : 1 ≤ day) (hd2 : day ≤ 5) :
    fromisocalendarOrd year week day
      = some (isoweek1monday year + 7 * (week - 1) + (day - 1)) := by
  have hwb : 1 ≤ week ∧ week ≤ 53 := by
    rcases hw with ⟨hl, hr⟩ | ⟨h53, _⟩ <;> omega
  obtain ⟨ho1, ho2⟩ := isoOrd_bounds year week day hy hy2 hw hd hd2
  unfold fromisocalendarOrd
  rw [if_neg (by simp only [Bool.or_eq_true, decide_eq_true_eq]; omega)]
  rw [if_neg (by simp only [Bool.or_eq_true, decide_eq_true_eq]; omega)]
  have h3 : ¬((week == 53 && !hasWeek53 year) = true) := by
    simp only [Bool.and_eq_true, beq_iff_eq, Bool.not_eq_true']
    rintro ⟨h53, hfalse⟩
    rcases hw with ⟨_, h52⟩ | ⟨_, htrue⟩
    · omega
    · rw [htrue] at hfalse
      exact Bool.noConfusion hfalse
  rw [if_neg h3]
  rw [if_neg (by simp only [Bool.or_eq_true, decide_eq_true_eq]; omega)]
  show (if ((isoweek1monday year + 7 * (week - 1) + (day - 1)) < 1 ||
        maxOrdinal < (isoweek1monday year + 7 * (week - 1) + (day - 1)))
      then (none : Option Int)
      else some (isoweek1monday year + 7 * (week - 1) + (day - 1)))
    = some (isoweek1monday year + 7 * (week - 1) + (day - 1))
  rw [if_neg (by simp only [Bool.or_eq_true, decide_eq_true_eq]; omega)]

end YT

namespace YT

/-- Claim C4 (amended): for every valid (year, week) pair — year 1..9999
and week in the valid ISO range (1..52, or 53 exactly when the ISO year
has 53 weeks) — `iso_week_range_utc` returns a Monday ordinal, a Friday
ordinal exactly 4 days later, a start equal to Monday 00:00:00.000 UTC
in epoch milliseconds, and a finish within 1 ms of Friday
23:59:59.999 UTC (the float pipeline can truncate 1 ms low), with
start < finish; for a week outside the valid ISO range it fails. -/
theorem C4_iso_week_range_amended (year week : Int) (hy : 1 ≤ year)
    (hy2 : year ≤ 9999) :
    (((1 ≤ week ∧ week ≤ 52) ∨ (week = 53 ∧ hasWeek53 year = true)) →
      ∃ m f s fin, iso_week_range_utc year week = some (m, f, s, fin) ∧
        m % 7 = 1 ∧ f = m + 4 ∧
        s = (m - epochOrdinal) * 86400000 ∧
        (fin - ((f - epochOrdinal) * 86400000 + 86399999)).natAbs ≤ 1 ∧
        s < fin) ∧
    (¬((1 ≤ week ∧ week ≤ 52) ∨ (week = 53 ∧ hasWeek53 year = true)) →
      iso_week_range_utc year week = none) := by
  constructor
  · intro hw
    have h1 := fromisocalendarOrd_valid year week 1 hy hy2 hw (by omega) (by omega)
    have h5 := fromisocalendarOrd_valid year week 5 hy hy2 hw (by omega) (by omega)
    rw [show (1 : ℤ) - 1 = 0 from rfl, add_zero] at h1
    rw [show (5 : ℤ) - 1 = 4 from rfl] at h5
    obtain ⟨ho1, ho2⟩ := isoOrd_bounds year week 1 hy hy2 hw (by omega) (by omega)
    obtain ⟨hf1, hf2⟩ := isoOrd_bounds year week 5 hy hy2 hw (by omega) (by omega)
    rw [show (1 : ℤ) - 1 = 0 from rfl, add_zero] at ho1 ho2
    rw [show (5 : ℤ) - 1 = 4 from rfl] at hf1 hf2
    have hmod := isoweek1monday_mod7 year
    have hmax : maxOrdinal = 3652059 := rfl
    have hE : epochOrdinal = 719163 := rfl
    have hsEq : pyTimestampMs
        ((isoweek1monday year + 7 * (week - 1) - epochOrdinal) * 86400000000)
        = (isoweek1monday year + 7 * (week - 1) - epochOrdinal) * 86400000 := by
      rw [hE]
      rw [show (isoweek1monday year + 7 * (week - 1) - 719163) * 86400000000
        = ((isoweek1monday year + 7 * (week - 1) - 719163) * 86400) * 1000000
        from by ring]
      rw [pyTimestampMs_exact _ (by omega)]
      ring
    have hfinNear : (pyTimestampMs
        ((isoweek1monday year + 7 * (week - 1) + 4 - epochOrdinal) * 86400000000
          + 86399999000)
        - ((isoweek1monday year + 7 * (week - 1) + 4 - epochOrdinal) * 86400000
          + 86399999)).natAbs ≤ 1 := by
      rw [hE]
      rw [show (isoweek1monday year + 7 * (week - 1) + 4 - 719163) * 86400000000
          + 86399999000
        = ((isoweek1monday year + 7 * (week - 1) + 4 - 719163) * 86400000
          + 86399999) * 1000 from by ring]
      exact pyTimestampMs_near _ (by omega) (by omega)
    refine ⟨isoweek1monday year + 7 * (week - 1),
      isoweek1monday year + 7 * (week - 1) + 4,
      pyTimestampMs
        ((isoweek1monday year + 7 * (week - 1) - epochOrdinal) * 86400000000),
      pyTimestampMs
        ((isoweek1monday year + 7 * (week - 1) + 4 - epochOrdinal) * 86400000000
          + 86399999000),
      ?_, by omega, rfl, hsEq, hfinNear, by omega⟩
    unfold iso_week_range_utc
    rw [h1, h5]
  · intro hnw
    have hnone : fromisocalendarOrd year week 1 = none := by
      unfold fromisocalendarOrd
      rw [if_neg (by simp only [Bool.or_eq_true, decide_eq_true_eq]; omega)]
      by_cases hout : week < 1 ∨ 53 < week
      · rw [if_pos (by simp only [Bool.or_eq_true, decide_eq_true_eq]; exact hout)]
      · have hout' : 1 ≤ week ∧ week ≤ 53 := by
          push_neg at hout
          omega
        have h53 : week = 53 ∧ hasWeek53 year = false := by
          constructor
          · by_contra hne
            exact hnw (Or.inl ⟨hout'.1, by omega⟩)
          · cases hcb : hasWeek53 year
            · rfl
            · exfalso
              have hwk : week = 53 := by
                by_contra hne
                exact hnw (Or.inl ⟨hout'.1, by omega⟩)
              exact hnw (Or.inr ⟨hwk, hcb⟩)
        rw [if_neg (by simp only [Bool.or_eq_true, decide_eq_true_eq]; exact hout)]
        rw [if_pos (by rw [h53.1, h53.2]; decide)]
    unfold iso_week_range_utc
    rw [hnone]

/-- Claim C4 (counterexample): for ISO week 1987-W02 the computed finish
timestamp is 537235199998 ms, one millisecond short of the exact
Friday 23:59:59.999 UTC instant 537235199999 ms — the truncation
`int(timestamp() * 1000)` loses a millisecond here, so `finishMillis`
is not always Friday 23:59:59.999 UTC. -/
theorem C4_counterexample :
    iso_week_range_utc 1987 2
      = some (725376, 725380, 536803200000, 537235199998) ∧
    (725380 - epochOrdinal) * 86400000 + 86399999 = 537235199999 ∧
    (537235199998 : Int) ≠ 537235199999 := by
  refine ⟨by decide, by decide, by decide⟩

/-- Witness for the amended Claim C4 theorem: the success branch at
(2025, 30) and the failure branch at the invalid week (2025, 53). -/
theorem C4_witness :
    (∃ m f s fin, iso_week_range_utc 2025 30 = some (m, f, s, fin) ∧
        m % 7 = 1 ∧ f = m + 4 ∧
        s = (m - epochOrdinal) * 86400000 ∧
        (fin - ((f - epochOrdinal) * 86400000 + 86399999)).natAbs ≤ 1 ∧
        s < fin) ∧
    iso_week_range_utc 2025 53 = none :=
  ⟨(C4_iso_week_range_amended 2025 30 (by decide) (by decide)).1 (by decide),
   (C4_iso_week_range_amended 2025 53 (by decide) (by decide)).2 (by decide)⟩

end YT
